import Mathlib

/-!
# Verification of the WebOpenSSL dual-backend crypto facade

Shallow embedding of the repository (modules `enc.js`, `rand.js`, `dgst.js`,
`req.js`) and proofs about the claims of its specification.

JavaScript strings are modelled as lists of UTF-16 code units (`JsStr`),
byte buffers (`Uint8Array`) as lists of naturals below 256.  The external
cryptographic engines (Web Crypto, CryptoJS, node-forge) are out of scope of
the repository and are modelled as abstract function parameters; every piece
of glue code of the repository itself (codecs, option handling, dispatch,
key-derivation argument marshalling) is translated faithfully.
-/

namespace WebOpenSSL

/-- A JavaScript string: a list of UTF-16 code units. -/
abbrev JsStr := List Nat

/-- Embed a Lean string literal (scalar values; used for ASCII literals,
where code units and code points coincide). -/
def jsOf (s : String) : JsStr := s.data.map Char.toNat

/-- A JavaScript value that is either a string or a `Uint8Array`. -/
inductive JsData where
  | str (s : JsStr)
  | bytes (b : List Nat)
deriving DecidableEq, Repr

/-- JS truthiness of an optional string-or-buffer value: `undefined` and the
empty string are falsy, every object (in particular any `Uint8Array`) is
truthy. -/
def jsTruthy : Option JsData → Bool
  | none => false
  | some (.str s) => !s.isEmpty
  | some (.bytes _) => true

/-- JS truthiness of an optional string. -/
def jsTruthyStr : Option JsStr → Bool
  | none => false
  | some s => !s.isEmpty

/-- ASCII uppercase of one UTF-16 unit (`String.prototype.toUpperCase`
restricted to the ASCII range used by the repository). -/
def upperUnit (c : Nat) : Nat := if 97 ≤ c ∧ c ≤ 122 then c - 32 else c

/-- `toUpperCase` on a JS string (ASCII range). -/
def jsUpper (s : JsStr) : JsStr := s.map upperUnit

/-! ## UTF-16 / UTF-8 transcoding (`TextEncoder` / `TextDecoder`) -/

/-- Convert a UTF-16 code-unit sequence to scalar values: surrogate pairs are
combined, lone surrogates become U+FFFD (the behaviour of `TextEncoder`). -/
def utf16ToScalars : List Nat → List Nat
  | [] => []
  | u :: rest =>
    if 0xD800 ≤ u ∧ u ≤ 0xDBFF then
      match rest with
      | l :: rest2 =>
        if 0xDC00 ≤ l ∧ l ≤ 0xDFFF then
          (0x10000 + (u - 0xD800) * 0x400 + (l - 0xDC00)) :: utf16ToScalars rest2
        else 0xFFFD :: utf16ToScalars (l :: rest2)
      | [] => [0xFFFD]
    else if 0xDC00 ≤ u ∧ u ≤ 0xDFFF then 0xFFFD :: utf16ToScalars rest
    else u :: utf16ToScalars rest

/-- Convert scalar values to UTF-16 code units (supplementary code points
become surrogate pairs). -/
def scalarsToUtf16 (cps : List Nat) : List Nat :=
  cps.flatMap fun cp =>
    if cp < 0x10000 then [cp]
    else [0xD800 + (cp - 0x10000) / 0x400, 0xDC00 + (cp - 0x10000) % 0x400]

/-- UTF-8 encoding of one scalar value. -/
def utf8Bytes (cp : Nat) : List Nat :=
  if cp < 0x80 then [cp]
  else if cp < 0x800 then [0xC0 + cp / 64, 0x80 + cp % 64]
  else if cp < 0x10000 then
    [0xE0 + cp / 4096, 0x80 + cp / 64 % 64, 0x80 + cp % 64]
  else
    [0xF0 + cp / 262144, 0x80 + cp / 4096 % 64, 0x80 + cp / 64 % 64, 0x80 + cp % 64]

/-- `new TextEncoder().encode(s)`: UTF-8 bytes of a JS string. -/
def textEncode (s : JsStr) : List Nat := (utf16ToScalars s).flatMap utf8Bytes

/-- Is `b` a UTF-8 continuation byte (`0x80 ≤ b ≤ 0xBF`)? -/
def isCont (b : Nat) : Bool := 0x80 ≤ b ∧ b ≤ 0xBF

/-- Admissible second byte of a 3-byte sequence (WHATWG windows: the lower
bound is 0xA0 after a 0xE0 lead, the upper bound 0x9F after 0xED). -/
def utf8Second (b1 b2 : Nat) : Bool :=
  if b1 = 0xE0 then decide (0xA0 ≤ b2 ∧ b2 ≤ 0xBF)
  else if b1 = 0xED then decide (0x80 ≤ b2 ∧ b2 ≤ 0x9F)
  else isCont b2

/-- Admissible second byte of a 4-byte sequence (lower bound 0x90 after a
0xF0 lead, upper bound 0x8F after 0xF4). -/
def utf8Second4 (b1 b2 : Nat) : Bool :=
  if b1 = 0xF0 then decide (0x90 ≤ b2 ∧ b2 ≤ 0xBF)
  else if b1 = 0xF4 then decide (0x80 ≤ b2 ∧ b2 ≤ 0x8F)
  else isCont b2

/-- WHATWG UTF-8 decoder with replacement (the behaviour of
`new TextDecoder().decode`), producing scalar values.  On a malformed
sequence it emits U+FFFD and resumes at the offending byte. -/
def utf8DecodeScalars : List Nat → List Nat
  | [] => []
  | b1 :: rest =>
    if b1 < 0x80 then b1 :: utf8DecodeScalars rest
    else if 0xC2 ≤ b1 ∧ b1 ≤ 0xDF then
      match rest with
      | [] => [0xFFFD]
      | b2 :: rest2 =>
        if isCont b2 then ((b1 - 0xC0) * 64 + (b2 - 0x80)) :: utf8DecodeScalars rest2
        else 0xFFFD :: utf8DecodeScalars (b2 :: rest2)
    else if 0xE0 ≤ b1 ∧ b1 ≤ 0xEF then
      match rest with
      | [] => [0xFFFD]
      | b2 :: rest2 =>
        if utf8Second b1 b2 = true then
          match rest2 with
          | [] => [0xFFFD]
          | b3 :: rest3 =>
            if isCont b3 then
              ((b1 - 0xE0) * 4096 + (b2 - 0x80) * 64 + (b3 - 0x80)) ::
                utf8DecodeScalars rest3
            else 0xFFFD :: utf8DecodeScalars (b3 :: rest3)
        else 0xFFFD :: utf8DecodeScalars (b2 :: rest2)
    else if 0xF0 ≤ b1 ∧ b1 ≤ 0xF4 then
      match rest with
      | [] => [0xFFFD]
      | b2 :: rest2 =>
        if utf8Second4 b1 b2 = true then
          match rest2 with
          | [] => [0xFFFD]
          | b3 :: rest3 =>
            if isCont b3 then
              match rest3 with
              | [] => [0xFFFD]
              | b4 :: rest4 =>
                if isCont b4 then
                  ((b1 - 0xF0) * 262144 + (b2 - 0x80) * 4096 +
                    (b3 - 0x80) * 64 + (b4 - 0x80)) :: utf8DecodeScalars rest4
                else 0xFFFD :: utf8DecodeScalars (b4 :: rest4)
            else 0xFFFD :: utf8DecodeScalars (b3 :: rest3)
        else 0xFFFD :: utf8DecodeScalars (b2 :: rest2)
    else 0xFFFD :: utf8DecodeScalars rest

/-- `new TextDecoder().decode(bytes)`: UTF-16 units of the decoded text. -/
def textDecode (b : List Nat) : JsStr := scalarsToUtf16 (utf8DecodeScalars b)

/-! ## Hexadecimal codec -/

/-- Lowercase hex digit character (code unit) of a value below 16, as
produced by `Number.prototype.toString(16)`. -/
def hexDigitChar (v : Nat) : Nat := if v < 10 then 48 + v else 87 + v

/-- `b.toString(16).padStart(2, c0)` for a byte `b < 256`. -/
def byteHex (b : Nat) : List Nat := [hexDigitChar (b / 16), hexDigitChar (b % 16)]

/-- Hex encoding used by `formatData` in `enc.js` and by `rand.js`:
`Array.from(bytes).map(b.toString(16).padStart(2,c0)).join(cc)`. -/
def hexEncode (bs : List Nat) : JsStr := bs.flatMap byteHex

/-- JS line terminators, which `.` in a regular expression does not match. -/
def isLineTerm (c : Nat) : Bool := c = 10 ∨ c = 13 ∨ c = 0x2028 ∨ c = 0x2029

/-- The match list of `s.match(/.{1,2}/g)`: greedy groups of one or two
non-line-terminator characters. -/
def hexChunks : List Nat → List (List Nat)
  | [] => []
  | [c1] => if isLineTerm c1 then [] else [[c1]]
  | c1 :: c2 :: rest =>
    if isLineTerm c1 then hexChunks (c2 :: rest)
    else if isLineTerm c2 then [c1] :: hexChunks rest
    else [c1, c2] :: hexChunks rest

/-- Value of a hex digit character, if it is one. -/
def hexVal (c : Nat) : Option Nat :=
  if 48 ≤ c ∧ c ≤ 57 then some (c - 48)
  else if 65 ≤ c ∧ c ≤ 70 then some (c - 55)
  else if 97 ≤ c ∧ c ≤ 102 then some (c - 87)
  else none

/-- JS whitespace accepted by `parseInt` before the number. -/
def isJsWs (c : Nat) : Bool :=
  c = 9 ∨ c = 10 ∨ c = 11 ∨ c = 12 ∨ c = 13 ∨ c = 32 ∨ c = 0xA0 ∨ c = 0xFEFF

/-- `parseInt(s, 16)`: optional whitespace, optional sign, optional `0x`
prefix, then a maximal run of hex digits; `none` models `NaN`. -/
def parseIntHex (s : List Nat) : Option Int :=
  let t := s.dropWhile isJsWs
  let signed : Bool × List Nat :=
    match t with
    | c :: r => if c = 45 then (true, r) else if c = 43 then (false, r) else (false, t)
    | [] => (false, [])
  let t3 : List Nat :=
    match signed.2 with
    | c :: d :: r => if c = 48 ∧ (d = 120 ∨ d = 88) then r else signed.2
    | _ => signed.2
  let digits := t3.takeWhile fun c => (hexVal c).isSome
  if digits.isEmpty then none
  else
    let mag : Int := digits.foldl (fun a c => 16 * a + ((hexVal c).getD 0 : Int)) 0
    some (if signed.1 then -mag else mag)

/-- Storing a JS number into a `Uint8Array` entry: `NaN` becomes `0`, other
integers are reduced modulo 256 (non-negative remainder). -/
def toUint8 (o : Option Int) : Nat :=
  match o with
  | none => 0
  | some v => (v % 256).toNat

/-- The hex-decode branch of `enc.js` (used for cipher input, salt and IV
when the `hex` flag is set):
`new Uint8Array(input.match(/.{1,2}/g).map(b => parseInt(b, 16)))`,
`none` modelling the `Invalid hex ...` throw when `match` returns `null`. -/
def hexDecodeJs (s : JsStr) : Option (List Nat) :=
  let cs := hexChunks s
  if cs.isEmpty then none
  else some (cs.map fun g => toUint8 (parseIntHex g))

/-! ## Base64 codec (`btoa` / `atob`) -/

/-- Character (code unit) of a 6-bit value in the standard base64 alphabet. -/
def b64Char (v : Nat) : Nat :=
  if v < 26 then 65 + v
  else if v < 52 then 71 + v
  else if v < 62 then v - 4
  else if v = 62 then 43
  else 47

/-- Index of a code unit in the standard base64 alphabet. -/
def b64Val (c : Nat) : Option Nat :=
  if 65 ≤ c ∧ c ≤ 90 then some (c - 65)
  else if 97 ≤ c ∧ c ≤ 122 then some (c - 71)
  else if 48 ≤ c ∧ c ≤ 57 then some (c + 4)
  else if c = 43 then some 62
  else if c = 47 then some 63
  else none

/-- `btoa(String.fromCharCode(...bytes))`: standard padded base64 of a byte
list. -/
def btoaBytes : List Nat → JsStr
  | [] => []
  | [b1] => [b64Char (b1 / 4), b64Char (b1 % 4 * 16), 61, 61]
  | [b1, b2] =>
    [b64Char (b1 / 4), b64Char (b1 % 4 * 16 + b2 / 16), b64Char (b2 % 16 * 4), 61]
  | b1 :: b2 :: b3 :: rest =>
    b64Char (b1 / 4) :: b64Char (b1 % 4 * 16 + b2 / 16) ::
      b64Char (b2 % 16 * 4 + b3 / 64) :: b64Char (b3 % 64) :: btoaBytes rest

/-- ASCII whitespace removed by forgiving-base64 (`atob`). -/
def isB64Ws (c : Nat) : Bool := c = 9 ∨ c = 10 ∨ c = 12 ∨ c = 13 ∨ c = 32

/-- Strip one or two trailing `=` characters. -/
def stripPad (t : JsStr) : JsStr :=
  match t.reverse with
  | 61 :: 61 :: r => r.reverse
  | 61 :: r => r.reverse
  | _ => t

/-- Core of forgiving-base64 decoding after whitespace and padding removal:
fails on a leftover single character or any character outside the alphabet;
leftover bits of a final partial group are discarded. -/
def atobCore : JsStr → Option (List Nat)
  | [] => some []
  | [_] => none
  | [c1, c2] => do
    let v1 ← b64Val c1
    let v2 ← b64Val c2
    pure [v1 * 4 + v2 / 16]
  | [c1, c2, c3] => do
    let v1 ← b64Val c1
    let v2 ← b64Val c2
    let v3 ← b64Val c3
    pure [v1 * 4 + v2 / 16, v2 % 16 * 16 + v3 / 4]
  | c1 :: c2 :: c3 :: c4 :: rest => do
    let v1 ← b64Val c1
    let v2 ← b64Val c2
    let v3 ← b64Val c3
    let v4 ← b64Val c4
    let tail ← atobCore rest
    pure ((v1 * 4 + v2 / 16) :: (v2 % 16 * 16 + v3 / 4) :: (v3 % 4 * 64 + v4) :: tail)

/-- Padding removal of forgiving-base64: strip up to two trailing `=` when
the length is a multiple of four. -/
def atobStrip (t : JsStr) : JsStr := if t.length % 4 = 0 then stripPad t else t

/-- `atob`: forgiving-base64 decode to a byte list (`none` models the
`InvalidCharacterError` throw): remove ASCII whitespace, strip padding,
fail on any remaining `=` or character outside the alphabet. -/
def atobBytes (s : JsStr) : Option (List Nat) :=
  if (atobStrip (s.filter fun c => !isB64Ws c)).any (fun c => c = 61) then none
  else atobCore (atobStrip (s.filter fun c => !isB64Ws c))

/-! ## CryptoJS encoders (byte-level semantics)

`CryptoJS.enc.Hex.parse`, `CryptoJS.enc.Base64.parse` and
`CryptoJS.enc.Utf8.parse` as functions on byte lists.  Word packing is
irrelevant at this level; the byte sequences are what `PBKDF2` and the
ciphers consume. -/

/-- `CryptoJS.enc.Hex.parse`: every two characters are parsed with
`parseInt(_, 16)` and stored as a byte (`NaN` contributing zero bits).
Modelled for inputs of even length (an odd length produces a fractional
`sigBytes` in CryptoJS, which the repository never relies on). -/
def cjsHexParse : JsStr → List Nat
  | c1 :: c2 :: rest => toUint8 (parseIntHex [c1, c2]) :: cjsHexParse rest
  | [c1] => [toUint8 (parseIntHex [c1])]
  | [] => []

/-- One step of the CryptoJS base64 `parseLoop`: the byte produced at a
position `i` with `i % 4 = k`, from the reverse-map values of the characters
at `i - 1` and `i` (an unmapped character contributes zero, like `NaN` in
the JS shifts). -/
def cjsB64Byte (k : Nat) (c1 c2 : Nat) : Nat :=
  (Nat.lor ((b64Val c1).getD 0 <<< (k * 2)) ((b64Val c2).getD 0 >>> (6 - k * 2))) % 256

/-- Group-wise core of `CryptoJS.enc.Base64.parse` (positions with
`i % 4 = 0` produce no byte). -/
def cjsB64Core : JsStr → List Nat
  | c1 :: c2 :: c3 :: c4 :: rest =>
    cjsB64Byte 1 c1 c2 :: cjsB64Byte 2 c2 c3 :: cjsB64Byte 3 c3 c4 :: cjsB64Core rest
  | [c1, c2, c3] => [cjsB64Byte 1 c1 c2, cjsB64Byte 2 c2 c3]
  | [c1, c2] => [cjsB64Byte 1 c1 c2]
  | _ => []

/-- `CryptoJS.enc.Base64.parse`: input truncated at the first `=`, then the
parse loop. -/
def cjsBase64Parse (s : JsStr) : List Nat := cjsB64Core (s.takeWhile (· ≠ 61))

/-- Is a UTF-16 sequence well formed (no lone surrogates)?  CryptoJS
`Utf8.parse` throws a `URIError` otherwise. -/
def wellFormed16 : List Nat → Bool
  | [] => true
  | u :: rest =>
    if 0xD800 ≤ u ∧ u ≤ 0xDBFF then
      match rest with
      | l :: rest2 => if 0xDC00 ≤ l ∧ l ≤ 0xDFFF then wellFormed16 rest2 else false
      | [] => false
    else if 0xDC00 ≤ u ∧ u ≤ 0xDFFF then false
    else wellFormed16 rest

/-- `CryptoJS.enc.Utf8.parse` (via `unescape(encodeURIComponent(s))`):
UTF-8 bytes for well-formed strings, a `URIError` throw (`none`) on lone
surrogates. -/
def cjsUtf8Parse (s : JsStr) : Option (List Nat) :=
  if wellFormed16 s then some (textEncode s) else none

/-! ## Algorithm-name parsing (`enc.js`) -/

/-- Is the code unit an ASCII decimal digit? -/
def isDigitUnit (c : Nat) : Bool := 48 ≤ c ∧ c ≤ 57

/-- First maximal run of decimal digits of a string:
`algorithm.match(/(\d+)/)?.[0]`. -/
def firstDigitRun : JsStr → Option (List Nat)
  | [] => none
  | c :: rest =>
    if isDigitUnit c then some (c :: rest.takeWhile isDigitUnit)
    else firstDigitRun rest

/-- Numeric value of a digit run (the `parseInt` of a matched digit
string). -/
def digitsToNat (ds : List Nat) : Nat := ds.foldl (fun a c => 10 * a + (c - 48)) 0

/-- `parseInt(algorithm.match(/(\d+)/)?.[0]) || 256`: key length in bits on
the Web Crypto path (`NaN` and `0` both fall back to 256). -/
def parseKeyBits (alg : JsStr) : Nat :=
  match firstDigitRun alg with
  | none => 256
  | some ds => if digitsToNat ds = 0 then 256 else digitsToNat ds

/-- `parseInt(algorithm.match(/(\d+)/)?.[0]) / 32`: CryptoJS `keySize` in
32-bit words, expressed in bits (`keySize * 32`).  Modelled for algorithms
whose bit count is divisible by 32 (`AES-128/192/256-...`); with no digit
run the JS value is `NaN` (no key material), modelled as 0. -/
def fallbackKeyBits (alg : JsStr) : Nat :=
  match firstDigitRun alg with
  | none => 0
  | some ds => digitsToNat ds / 32 * 32

/-! ## The cipher operation (`enc.js`) -/

/-- `Uint8Array.prototype.toString`: decimal values joined by commas (the
string JS coerces a byte buffer to when it is handed to a string API). -/
def uint8JoinStr (b : List Nat) : JsStr :=
  (List.intersperse (jsOf ",") (b.map fun v => jsOf (toString v))).flatten

/-- Coerce a string-or-buffer value to the string a JS string API sees. -/
def coerceStr : JsData → JsStr
  | .str s => s
  | .bytes b => uint8JoinStr b

/-- The primary (Web Crypto) backend of the cipher path, abstracted: PBKDF2
key derivation (password bytes, salt bytes, iterations, key bits) and the
AES transforms, which may fail (`none` models a rejected promise, caught by
the fallback dispatch). -/
structure PrimBackend where
  kdf : List Nat → List Nat → Nat → Nat → List Nat
  encrypt : List Nat → List Nat → List Nat → Option (List Nat)
  decrypt : List Nat → List Nat → List Nat → Option (List Nat)

/-- The fallback (CryptoJS) backend, abstracted likewise (its own failures
propagate to the caller, so the transforms are total here). -/
structure FbBackend where
  kdf : List Nat → List Nat → Nat → Nat → List Nat
  encrypt : List Nat → List Nat → List Nat → List Nat
  decrypt : List Nat → List Nat → List Nat → List Nat

/-- A primary backend whose transforms always succeed (Web Crypto working
normally), built from total key-derivation and cipher functions. -/
def totalBackend (kdf : List Nat → List Nat → Nat → Nat → List Nat)
    (E D : List Nat → List Nat → List Nat → List Nat) : PrimBackend :=
  ⟨kdf, fun k v d => some (E k v d), fun k v d => some (D k v d)⟩

/-- The option bag of `enc` (`enc.js` lines 38-49), with defaults. -/
structure EncOpts where
  algorithm : JsStr := jsOf "AES-256-CBC"
  input : Option JsData := none
  decrypt : Bool := false
  password : Option JsStr := none
  salt : Option JsData := none
  iv : Option JsData := none
  iterations : Nat := 10000
  base64 : Bool := false
  hex : Bool := false
  raw : Bool := false

/-- The object returned by `enc`: `data`, `iv`, `salt` fields (`salt` is
absent from the fallback result when the `salt` option was falsy). -/
structure RetObj where
  data : JsData
  iv : Option JsData
  salt : Option JsData
deriving DecidableEq, Repr

/-- Draw `n` random bytes from the entropy stream starting at `pos`
(`crypto.getRandomValues(new Uint8Array(n))` / `WordArray.random(n)`;
randomness is an explicit input of the embedding). -/
def drawBytes (ent : Nat → Nat) (pos n : Nat) : List Nat :=
  (List.range n).map fun i => ent (pos + i) % 256

/-- Input normalization of `enc` (`enc.js` lines 63-98): decode a string
input per the `base64`/`hex` flags or UTF-8, pass byte input through.
Errors here are raised to the caller (they happen before the backend
dispatch). -/
def normalizeInput (b64 hx : Bool) : JsData → Except String (List Nat)
  | .str s =>
    if b64 then
      match atobBytes s with
      | some d => .ok d
      | none => .error "Base64 decode failed"
    else if hx then
      match hexDecodeJs s with
      | some d => .ok d
      | none => .error "Invalid hex input"
    else .ok (textEncode s)
  | .bytes b => .ok b

/-- Salt/IV resolution on the Web Crypto path (`enc.js` lines 107-136 and
160-189): a truthy value is decoded per the flags (a byte buffer is coerced
to its comma-joined string by `atob`/`TextEncoder`, and makes `.match` throw
on the hex branch); a falsy one is replaced by 16 fresh random bytes.
Returns the bytes and the new entropy position; `.error` models a throw
inside the `try` (which triggers the fallback). -/
def resolveBufPrimary (b64 hx : Bool) (v : Option JsData) (ent : Nat → Nat)
    (pos : Nat) : Except String (List Nat × Nat) :=
  if jsTruthy v then
    match v with
    | some d =>
      if b64 then
        match atobBytes (coerceStr d) with
        | some bs => .ok (bs, pos)
        | none => .error "Salt or IV base64 decode failed"
      else if hx then
        match d with
        | .str s =>
          match hexDecodeJs s with
          | some bs => .ok (bs, pos)
          | none => .error "Invalid hex salt or IV"
        | .bytes _ => .error "TypeError: match is not a function"
      else .ok (textEncode (coerceStr d), pos)
    | none => .error "unreachable: truthy implies present"
  else .ok (drawBytes ent pos 16, pos + 16)

/-- `formatData` of `enc.js` (lines 217-225): base64, hex or UTF-8 text. -/
def formatData (b64 hx : Bool) (bytes : List Nat) : JsStr :=
  if b64 then btoaBytes bytes
  else if hx then hexEncode bytes
  else textDecode bytes

/-- One attempt on the Web Crypto path (the body of the `try` in `enc.js`
lines 106-231).  Returns the salt and IV bytes it used, the result or the
caught error, and the next entropy position. -/
def primaryAttempt (P : PrimBackend) (o : EncOpts) (data : List Nat)
    (ent : Nat → Nat) : Option (List Nat) × Option (List Nat) ×
      Except String RetObj :=
  match resolveBufPrimary o.base64 o.hex o.salt ent 0 with
  | .error e => (none, none, .error e)
  | .ok (saltBytes, pos1) =>
    -- PBKDF2 with iterations = 0 makes deriveKey reject (OperationError)
    if o.iterations = 0 then (some saltBytes, none, .error "OperationError: deriveKey")
    else
      let key := P.kdf (textEncode (o.password.getD [])) saltBytes o.iterations
        (parseKeyBits o.algorithm)
      match resolveBufPrimary o.base64 o.hex o.iv ent pos1 with
      | .error e => (some saltBytes, none, .error e)
      | .ok (ivBytes, _) =>
        match (if o.decrypt then P.decrypt else P.encrypt) key ivBytes data with
        | none => (some saltBytes, some ivBytes, .error "Web Crypto operation failed")
        | some resultArray =>
          if o.raw then
            (some saltBytes, some ivBytes,
              .ok ⟨.bytes resultArray, some (.bytes ivBytes), some (.bytes saltBytes)⟩)
          else
            (some saltBytes, some ivBytes,
              .ok ⟨.str (formatData o.base64 o.hex resultArray),
                some (.str (formatData o.base64 o.hex ivBytes)),
                some (.str (formatData o.base64 o.hex saltBytes))⟩)

/-- What the CryptoJS fallback (`cryptoJSEncrypt`) did: the salt, IV and
iteration count it used, and its result (or the error it threw to the
caller). -/
structure FbOutcome where
  saltUsed : List Nat := []
  ivUsed : Option (List Nat) := none
  iterUsed : Nat := 0
  result : Except String RetObj

/-- Salt resolution of `cryptoJSEncrypt` (lines 255-272): a truthy byte
buffer becomes a WordArray directly; a truthy string is parsed with the
CryptoJS codec selected by the flags; anything falsy draws 16 FRESH random
bytes (`CryptoJS.lib.WordArray.random(16)`). -/
def cjsResolveSalt (b64 hx : Bool) (salt : Option JsData) (ent : Nat → Nat)
    (pos : Nat) : Except String (List Nat × Nat) :=
  if jsTruthy salt then
    match salt with
    | some (.bytes b) => .ok (b, pos)            -- WordArray.create(salt)
    | some (.str s) =>
      if b64 then .ok (cjsBase64Parse s, pos)
      else if hx then .ok (cjsHexParse s, pos)
      else
        match cjsUtf8Parse s with
        | some bs => .ok (bs, pos)
        | none => .error "URIError: malformed URI sequence"
    | none => .ok (drawBytes ent pos 16, pos + 16)
  else .ok (drawBytes ent pos 16, pos + 16)

/-- IV resolution of the `cryptoJSEncrypt` encrypt branch (lines 317-321):
like the salt, but a byte-buffer IV crashes the Base64/Hex parsers
(`charCodeAt`/`substr` are not functions on a `Uint8Array`) and is coerced
to its comma-joined string by `Utf8.parse`. -/
def cjsResolveIv (b64 hx : Bool) (iv : Option JsData) (ent : Nat → Nat)
    (pos : Nat) : Except String (List Nat × Nat) :=
  if jsTruthy iv then
    match iv with
    | some (.str s) =>
      if b64 then .ok (cjsBase64Parse s, pos)
      else if hx then .ok (cjsHexParse s, pos)
      else
        match cjsUtf8Parse s with
        | some bs => .ok (bs, pos)
        | none => .error "URIError: malformed URI sequence"
    | some (.bytes b) =>
      if b64 then .error "TypeError: iv.charCodeAt is not a function"
      else if hx then .error "TypeError: iv.substr is not a function"
      else .ok (textEncode (uint8JoinStr b), pos)
    | none => .ok (drawBytes ent pos 16, pos + 16)
  else .ok (drawBytes ent pos 16, pos + 16)

/-- `cryptoJSEncrypt` (`enc.js` lines 246-358).  `data` is always the
normalized `Uint8Array` produced by `enc`.  Faithful consequences of that:
the decrypt branch applies `CryptoJS.enc.Base64.parse` to a byte buffer and
throws (`charCodeAt` is not a function); the non-raw encrypt output calls
`result.toString` with an encoder, which throws inside
`CipherParams.toString` (`wordArray.clamp` is not a function); the raw
branch builds `new Uint8Array(n)` from the LENGTH `sigBytes`, yielding
zero-filled buffers. -/
def cryptoJSEncrypt (F : FbBackend) (data : List Nat) (alg : JsStr)
    (password : JsStr) (salt iv : Option JsData) (iterations : Nat)
    (decrypt b64 hx raw : Bool) (ent : Nat → Nat) (pos : Nat) : FbOutcome :=
  match cjsResolveSalt b64 hx salt ent pos with
  | .error e => ⟨[], none, 0, .error e⟩
  | .ok (finalSalt, pos1) =>
    let iter := if iterations = 0 then 10000 else iterations
    match cjsUtf8Parse password with
    | none => ⟨finalSalt, none, iter, .error "URIError: malformed URI sequence"⟩
    | some pwBytes =>
      let key := F.kdf pwBytes finalSalt iter (fallbackKeyBits alg)
      if decrypt then
        -- line 285-291: Base64/Hex parse applied to the Uint8Array `data`
        ⟨finalSalt, none, iter, .error "TypeError: data.charCodeAt is not a function"⟩
      else
        -- lines 306-315: data instanceof Uint8Array, so plaintext = data
        match cjsResolveIv b64 hx iv ent pos1 with
        | .error e => ⟨finalSalt, none, iter, .error e⟩
        | .ok (ivBytes, _) =>
          let ciphertext := F.encrypt key ivBytes data
          if raw then
            -- lines 330-343: new Uint8Array(wordArray.sigBytes) — zero-filled
            ⟨finalSalt, some ivBytes, iter,
              .ok ⟨.bytes (List.replicate ciphertext.length 0),
                some (.bytes (List.replicate ivBytes.length 0)),
                if jsTruthy salt then some (.bytes (List.replicate finalSalt.length 0))
                else none⟩⟩
          else
            -- line 346-348: result.toString(encoder) on a CipherParams throws
            ⟨finalSalt, some ivBytes, iter,
              .error "TypeError: wordArray.clamp is not a function"⟩

/-- The full observable outcome of one `enc` call. -/
structure EncOutcome where
  result : Except String RetObj
  primarySalt : Option (List Nat) := none
  primaryIv : Option (List Nat) := none
  fellBack : Bool := false
  fallbackSalt : Option (List Nat) := none
  fallbackIv : Option (List Nat) := none
  fallbackIter : Option Nat := none

/-- The `enc` operation (`enc.js` lines 37-241): validation, input
normalization, then the Web Crypto attempt when available, falling back to
`cryptoJSEncrypt` with the ORIGINAL `salt`, `iv` and `iterations` options on
absence or failure of Web Crypto. -/
def encModel (P : PrimBackend) (F : FbBackend) (hasWebCrypto : Bool)
    (o : EncOpts) (ent : Nat → Nat) : EncOutcome :=
  if !jsTruthy o.input then ⟨.error "Input data required", none, none, false, none, none, none⟩
  else if o.decrypt ∧ (!jsTruthyStr o.password ∨ !jsTruthy o.iv) then
    ⟨.error "Password and IV required for decryption", none, none, false, none, none, none⟩
  else if !o.decrypt ∧ !jsTruthyStr o.password then
    ⟨.error "Password required for encryption", none, none, false, none, none, none⟩
  else
    match normalizeInput o.base64 o.hex (o.input.getD (.str [])) with
    | .error e => ⟨.error e, none, none, false, none, none, none⟩
    | .ok data =>
      if hasWebCrypto then
        match primaryAttempt P o data ent with
        | (ps, pi, .ok r) => ⟨.ok r, ps, pi, false, none, none, none⟩
        | (ps, pi, .error _) =>
          -- catch: cryptoJSEncrypt(data, algorithm, password, salt, iv,
          -- iterations, decrypt, base64, hex, raw) with fresh randomness
          let fb := cryptoJSEncrypt F data o.algorithm (o.password.getD [])
            o.salt o.iv o.iterations o.decrypt o.base64 o.hex o.raw ent 32
          ⟨fb.result, ps, pi, true, some fb.saltUsed, fb.ivUsed, some fb.iterUsed⟩
      else
        let fb := cryptoJSEncrypt F data o.algorithm (o.password.getD [])
          o.salt o.iv o.iterations o.decrypt o.base64 o.hex o.raw ent 0
        ⟨fb.result, none, none, true, some fb.saltUsed, fb.ivUsed, some fb.iterUsed⟩

/-! ## Key derivation marshalling (`enc.js` lines 139-158 and 274-278) -/

/-- Arguments the Web Crypto path hands to PBKDF2: UTF-8 password bytes,
salt bytes, the iteration count, SHA-256, and `keyLength` bits. -/
def primaryDeriveKey (pbkdf2 : List Nat → List Nat → Nat → Nat → List Nat)
    (password : JsStr) (saltBytes : List Nat) (iterations keyBits : Nat) : List Nat :=
  pbkdf2 (textEncode password) saltBytes iterations keyBits

/-- Arguments `cryptoJSEncrypt` hands to PBKDF2: the same password bytes and
salt, `iterations || 10000`, SHA-256, and `keySize` words. -/
def fallbackDeriveKey (pbkdf2 : List Nat → List Nat → Nat → Nat → List Nat)
    (pwBytes : List Nat) (saltBytes : List Nat) (iterations keyBitsFb : Nat) : List Nat :=
  pbkdf2 pwBytes saltBytes (if iterations = 0 then 10000 else iterations) keyBitsFb

/-! ## The random operation (`rand.js`) -/

/-- Output formatting of `rand` (lines 37-49): `raw` returns the buffer,
then `base64`, then `hex`, and the DEFAULT branch returns base64 again
("for OpenSSL compatibility"). -/
def randFormat (raw b64 hx : Bool) (bytes : List Nat) : JsData :=
  if raw then .bytes bytes
  else if b64 then .str (btoaBytes bytes)
  else if hx then .str (hexEncode bytes)
  else .str (btoaBytes bytes)

/-- The `rand` operation on the Web Crypto path (lines 25-49); the requested
length is a JS number, modelled as a rational so that `Number.isInteger` is
meaningful. -/
def randModel (length : ℚ) (raw b64 hx : Bool) (ent : Nat → Nat) :
    Except String JsData :=
  if !(length.den = 1 ∧ 0 < length) then
    .error "Invalid length: must be positive integer"
  else .ok (randFormat raw b64 hx (drawBytes ent 0 length.num.toNat))

/-! ## The digest operation (`dgst.js`) -/

/-- The algorithm-name normalization table of `dgst.js` (lines 122-132):
`some none` models the `null` entry for MD5, `none` a missing key. -/
def dgstAlgoTable (u : JsStr) : Option (Option JsStr) :=
  if u = jsOf "SHA-1" ∨ u = jsOf "SHA1" then some (some (jsOf "SHA-1"))
  else if u = jsOf "SHA-256" ∨ u = jsOf "SHA256" then some (some (jsOf "SHA-256"))
  else if u = jsOf "SHA-384" ∨ u = jsOf "SHA384" then some (some (jsOf "SHA-384"))
  else if u = jsOf "SHA-512" ∨ u = jsOf "SHA512" then some (some (jsOf "SHA-512"))
  else if u = jsOf "MD5" then some none
  else none

/-- `{...}[algorithm.toUpperCase()] || algorithm`: `null` and `undefined`
both fall back to the original algorithm string. -/
def webCryptoAlgo (alg : JsStr) : JsStr :=
  match dgstAlgoTable (jsUpper alg) with
  | some (some a) => a
  | some none => alg
  | none => alg

/-- Which engine computed a digest. -/
inductive DigestEngine where
  | primary
  | fallback
deriving DecidableEq, Repr

/-- The dispatch of `dgst` when Web Crypto is present (lines 134-158):
attempt `crypto.subtle.digest(webCryptoAlgo, data)` unless the resolved name
is falsy or exactly the string MD5; any failure is caught and falls back to
`cryptoJSHash(data, algorithm, ...)`.  `primaryDigest a = none` models a
rejected `subtle.digest` call (unsupported algorithm). -/
def dgstRoute (primaryDigest : JsStr → Option (List Nat))
    (cjsHash : JsStr → List Nat) (alg : JsStr) : DigestEngine × List Nat :=
  if !(webCryptoAlgo alg).isEmpty ∧ webCryptoAlgo alg ≠ jsOf "MD5" then
    match primaryDigest (webCryptoAlgo alg) with
    | some h => (.primary, h)
    | none => (.fallback, cjsHash alg)
  else (.fallback, cjsHash alg)

/-! ## The certificate-request operation (`req.js`) -/

/-- `String.prototype.split(sep)` for a single-character separator. -/
def splitOnChar (sep : Char) : List Char → List (List Char)
  | [] => [[]]
  | c :: rest =>
    if c = sep then [] :: splitOnChar sep rest
    else
      match splitOnChar sep rest with
      | g :: gs => (c :: g) :: gs
      | [] => [[c]]

/-- ASCII uppercase on characters (`toUpperCase` restricted to the ASCII
range used for DN attribute names). -/
def asciiUpperChar (c : Char) : Char :=
  if 97 ≤ c.toNat ∧ c.toNat ≤ 122 then Char.ofNat (c.toNat - 32) else c

/-- ASCII uppercase on strings. -/
def asciiUpperStr (s : String) : String := String.mk (s.data.map asciiUpperChar)

/-- The per-segment step of subject parsing: split on `=`, destructure the
first two parts, keep the pair (name uppercased) when both are nonempty. -/
def segAttr (attr : List Char) : Option (String × String) :=
  match splitOnChar (Char.ofNat 61) attr with
  | key :: value :: _ =>
    if key ≠ [] ∧ value ≠ [] then
      some (asciiUpperStr (String.mk key), String.mk value)
    else none
  | _ => none

/-- Subject DN parsing (`req.js` lines 48-52): split on `/`, drop the text
before the first `/`, split each segment on `=` and destructure the first
two parts; push `{shortName: key.toUpperCase(), value}` when both are
truthy. -/
def parseSubject (subject : String) : List (String × String) :=
  ((splitOnChar (Char.ofNat 47) subject.data).drop 1).foldl
    (fun acc attr =>
      match splitOnChar (Char.ofNat 61) attr with
      | key :: value :: _ =>
        if key ≠ [] ∧ value ≠ [] then
          acc ++ [(asciiUpperStr (String.mk key), String.mk value)]
        else acc
      | _ => acc)
    []

/-- A node-forge key pair (the PKI engine is external; `rsa bits` is what
`forge.pki.rsa.generateKeyPair({bits})` produces). -/
inductive ForgeKeyPair where
  | rsa (bits : Nat)
deriving DecidableEq, Repr

/-- The key-generation step of `req` (`req.js` lines 55-62): the EC branch
computes an (unused) curve name and then calls the RSA generator anyway; the
`||` fallback after it is unreachable because the generated key-pair object
is truthy.  No branch throws. -/
def reqGenerateKeyPair (keyAlgo : String) (keySize : Nat) : ForgeKeyPair :=
  if asciiUpperStr keyAlgo = "EC" then
    -- const curve = keySize === 256 ? p256 : keySize === 384 ? p384 : p521 (unused)
    ForgeKeyPair.rsa keySize
  else ForgeKeyPair.rsa keySize

/-! ## A concrete backend instance (used to evaluate the model)

A key- and IV-sensitive cipher satisfying the decrypt-inverts-encrypt
contract on byte buffers: encryption shifts every byte by the sum of key
and IV bytes modulo 256. -/

/-- Shift-cipher encryption (a stand-in backend that is sensitive to key
and IV and invertible on bytes). -/
def cxE (k v d : List Nat) : List Nat :=
  d.map fun b => (b + (k.sum + v.sum)) % 256

/-- Shift-cipher decryption, inverse of `cxE` on byte buffers. -/
def cxD (k v c : List Nat) : List Nat :=
  c.map fun b => (b + 256 - (k.sum + v.sum) % 256) % 256

/-- A stand-in PBKDF2 that returns the salt (a deterministic function of
its inputs, which is all the round-trip argument needs). -/
def cxKdf (p s : List Nat) (i kb : Nat) : List Nat := s

/-- A trivial fallback backend (never reached in the evaluated runs). -/
def cxF : FbBackend := ⟨fun _ _ _ _ => [], fun _ _ _ => [], fun _ _ _ => []⟩

/-- The C1 counterexample encrypt call: plaintext `secret`, password `pw`,
default flags (UTF-8 text output), entropy stream of 0xFF bytes. -/
def cxOpts1 : EncOpts :=
  ⟨jsOf "AES-256-CBC", some (.str (jsOf "secret")), false, some (jsOf "pw"),
    none, none, 10000, false, false, false⟩

/-- Outcome of the counterexample encrypt call. -/
def cxEnc1 : EncOutcome :=
  encModel (totalBackend cxKdf cxE cxD) cxF true cxOpts1 (fun _ => 255)

/-- Its returned object. -/
def cxR1 : RetObj := cxEnc1.result.toOption.getD ⟨.str [], none, none⟩

/-- The decrypt call fed the encrypt result unmodified, same flags,
password and iterations. -/
def cxOpts2 : EncOpts :=
  ⟨jsOf "AES-256-CBC", some cxR1.data, true, some (jsOf "pw"), cxR1.salt,
    cxR1.iv, 10000, false, false, false⟩

/-- Outcome of the counterexample decrypt call. -/
def cxDec1 : EncOutcome :=
  encModel (totalBackend cxKdf cxE cxD) cxF true cxOpts2 (fun _ => 255)

/-- Its returned object. -/
def cxR2 : RetObj := cxDec1.result.toOption.getD ⟨.str [], none, none⟩

/-- A primary backend whose cipher transforms always fail (models a Web
Crypto runtime failure at the encrypt/decrypt step, after salt, key and IV
were already resolved). -/
def failP : PrimBackend := ⟨cxKdf, fun _ _ _ => none, fun _ _ _ => none⟩

/-- The C2 failing input: encrypt `hi` with password `pw`, no salt and no
IV supplied, default flags, with a deterministic entropy stream. -/
def c2Opts : EncOpts :=
  ⟨jsOf "AES-256-CBC", some (.str (jsOf "hi")), false, some (jsOf "pw"),
    none, none, 10000, false, false, false⟩

/-- Outcome of the C2 failing input when the primary cipher fails. -/
def c2Out : EncOutcome := encModel failP cxF true c2Opts (fun n => n % 256)

/-! ## Spec-side comparison definitions

These follow the specification text (not the source) and exist only to be
compared with the code-derived definitions above. -/

/-- The four output encodings of the specification. -/
inductive OutEnc where
  | raw
  | b64
  | hex
  | utf8
deriving DecidableEq, Repr

/-- Spec-side `encode(bytes, e)`. -/
def encodeAs : OutEnc → List Nat → JsData
  | .raw, b => .bytes b
  | .b64, b => .str (btoaBytes b)
  | .hex, b => .str (hexEncode b)
  | .utf8, b => .str (textDecode b)

/-- Spec-side `decode(text, e)` (the cipher input-normalization branches). -/
def decodeAs : OutEnc → JsData → Option (List Nat)
  | .raw, .bytes b => some b
  | .raw, .str _ => none
  | .b64, .str s => atobBytes s
  | .hex, .str s => hexDecodeJs s
  | .utf8, .str s => some (textEncode s)
  | _, .bytes _ => none

/-- The specified output-encoding priority: raw > base64 > hex > UTF-8. -/
def effectiveEncoding (raw b64 hx : Bool) : OutEnc :=
  if raw then .raw else if b64 then .b64 else if hx then .hex else .utf8

/-- The priority actually implemented by `rand.js`: raw > base64 > hex,
with base64 (not UTF-8) as the default. -/
def randEffective (raw b64 hx : Bool) : OutEnc :=
  if raw then .raw else if b64 then .b64 else if hx then .hex else .b64

/-- Output selection of the cipher operation (`enc.js` lines 206-231,
condensed): raw bytes, else `formatData`. -/
def encSelectOutput (raw b64 hx : Bool) (bytes : List Nat) : JsData :=
  if raw then .bytes bytes else .str (formatData b64 hx bytes)

/-- What the specification says hex decoding does on valid input: each
2-character group parsed as one base-16 byte. -/
def specHexPairs : JsStr → List Nat
  | c1 :: c2 :: rest => (16 * (hexVal c1).getD 0 + (hexVal c2).getD 0) :: specHexPairs rest
  | _ => []

/-- Unpadded base64 encoding (proof scaffolding: `btoaBytes` with the
trailing `=` removed). -/
def b64Unpadded : List Nat → JsStr
  | [] => []
  | [b1] => [b64Char (b1 / 4), b64Char (b1 % 4 * 16)]
  | [b1, b2] =>
    [b64Char (b1 / 4), b64Char (b1 % 4 * 16 + b2 / 16), b64Char (b2 % 16 * 4)]
  | b1 :: b2 :: b3 :: rest =>
    b64Char (b1 / 4) :: b64Char (b1 % 4 * 16 + b2 / 16) ::
      b64Char (b2 % 16 * 4 + b3 / 64) :: b64Char (b3 % 64) :: b64Unpadded rest

/-- Is the byte list a valid UTF-8 encoding (of a sequence of scalar
values)?  Mirrors the well-formed windows of the WHATWG decoder. -/
def validUtf8 : List Nat → Bool
  | [] => true
  | b1 :: rest =>
    if b1 < 0x80 then validUtf8 rest
    else if 0xC2 ≤ b1 ∧ b1 ≤ 0xDF then
      match rest with
      | [] => false
      | b2 :: rest2 => if isCont b2 = true then validUtf8 rest2 else false
    else if 0xE0 ≤ b1 ∧ b1 ≤ 0xEF then
      match rest with
      | [] => false
      | b2 :: rest2 =>
        if utf8Second b1 b2 = true then
          match rest2 with
          | [] => false
          | b3 :: rest3 => if isCont b3 = true then validUtf8 rest3 else false
        else false
    else if 0xF0 ≤ b1 ∧ b1 ≤ 0xF4 then
      match rest with
      | [] => false
      | b2 :: rest2 =>
        if utf8Second4 b1 b2 = true then
          match rest2 with
          | [] => false
          | b3 :: rest3 =>
            if isCont b3 = true then
              match rest3 with
              | [] => false
              | b4 :: rest4 => if isCont b4 = true then validUtf8 rest4 else false
            else false
        else false
    else false

/-- A scalar value in the sense of the decoder output: in range and not a
surrogate. -/
def goodScalar (cp : Nat) : Prop := cp < 1114112 ∧ (cp < 55296 ∨ 57343 < cp)

/-- All entries are bytes. -/
def isBytes (bs : List Nat) : Prop := ∀ b ∈ bs, b < 256

/-- All characters are hex digits. -/
def allHexDigits (s : JsStr) : Bool := s.all fun c => (hexVal c).isSome

/-- A valid lowercase hex string of even length (the canonical image of
`hexEncode`). -/
def validLowerHex (s : JsStr) : Bool :=
  !s.isEmpty && s.length % 2 = 0 &&
    s.all fun c => (48 ≤ c ∧ c ≤ 57) ∨ (97 ≤ c ∧ c ≤ 102)

/-! ## Helper lemmas: hex codec -/

theorem hexVal_cases {c v : Nat} (h : hexVal c = some v) :
    (48 ≤ c ∧ c ≤ 57 ∧ v = c - 48) ∨ (65 ≤ c ∧ c ≤ 70 ∧ v = c - 55) ∨
      (97 ≤ c ∧ c ≤ 102 ∧ v = c - 87) := by
  unfold hexVal at h
  split_ifs at h with h1 h2 h3 <;> simp_all

theorem hexVal_lt {c v : Nat} (h : hexVal c = some v) : v < 16 := by
  rcases hexVal_cases h with ⟨_, _, rfl⟩ | ⟨_, _, rfl⟩ | ⟨_, _, rfl⟩ <;> omega

theorem hexVal_not_ws {c v : Nat} (h : hexVal c = some v) : isJsWs c = false := by
  rcases hexVal_cases h with ⟨h1, h2, _⟩ | ⟨h1, h2, _⟩ | ⟨h1, h2, _⟩ <;>
    (simp only [isJsWs, decide_eq_false_iff_not]; omega)

theorem parseIntHex_pair {c1 c2 v1 v2 : Nat} (h1 : hexVal c1 = some v1)
    (h2 : hexVal c2 = some v2) :
    parseIntHex [c1, c2] = some ((16 * v1 + v2 : Nat) : Int) := by
  have hc1 := hexVal_cases h1
  have hc2 := hexVal_cases h2
  have hw1 : isJsWs c1 = false := hexVal_not_ws h1
  have hn45 : c1 ≠ 45 := by rcases hc1 with ⟨a, b, _⟩ | ⟨a, b, _⟩ | ⟨a, b, _⟩ <;> omega
  have hn43 : c1 ≠ 43 := by rcases hc1 with ⟨a, b, _⟩ | ⟨a, b, _⟩ | ⟨a, b, _⟩ <;> omega
  have hnx : ¬(c1 = 48 ∧ (c2 = 120 ∨ c2 = 88)) := by
    rcases hc2 with ⟨a, b, _⟩ | ⟨a, b, _⟩ | ⟨a, b, _⟩ <;> omega
  simp only [parseIntHex, List.dropWhile, hw1]
  simp only [if_neg hn45, if_neg hn43, if_neg hnx]
  simp [List.takeWhile, h1, h2, List.foldl]

theorem toUint8_pair {c1 c2 v1 v2 : Nat} (h1 : hexVal c1 = some v1)
    (h2 : hexVal c2 = some v2) : toUint8 (parseIntHex [c1, c2]) = 16 * v1 + v2 := by
  rw [parseIntHex_pair h1 h2]
  have l1 := hexVal_lt h1
  have l2 := hexVal_lt h2
  simp only [toUint8]
  rw [Int.emod_eq_of_lt (by positivity) (by push_cast; omega)]
  omega

theorem hexVal_hexDigitChar {v : Nat} (h : v < 16) :
    hexVal (hexDigitChar v) = some v := by
  unfold hexDigitChar hexVal
  split_ifs <;> first | (congr 1; omega) | omega | (exfalso; omega)

theorem hexDigitChar_not_lineTerm {v : Nat} (h : v < 16) :
    isLineTerm (hexDigitChar v) = false := by
  unfold hexDigitChar isLineTerm
  split_ifs <;> (simp only [decide_eq_false_iff_not]; omega)

theorem toUint8_byteHex {b : Nat} (h : b < 256) :
    toUint8 (parseIntHex (byteHex b)) = b := by
  unfold byteHex
  rw [toUint8_pair (hexVal_hexDigitChar (by omega)) (hexVal_hexDigitChar (by omega))]
  omega

theorem hexChunks_cons2 {c1 c2 : Nat} (h1 : isLineTerm c1 = false)
    (h2 : isLineTerm c2 = false) (rest : List Nat) :
    hexChunks (c1 :: c2 :: rest) = [c1, c2] :: hexChunks rest := by
  show (if isLineTerm c1 = true then hexChunks (c2 :: rest)
    else if isLineTerm c2 = true then [c1] :: hexChunks rest
    else [c1, c2] :: hexChunks rest) = [c1, c2] :: hexChunks rest
  rw [if_neg (by simp [h1]), if_neg (by simp [h2])]

theorem hexChunks_hexEncode {bs : List Nat} (h : isBytes bs) :
    hexChunks (hexEncode bs) = bs.map byteHex := by
  induction bs with
  | nil => rfl
  | cons b t ih =>
    have hb : b < 256 := h b (by simp)
    show hexChunks (hexDigitChar (b / 16) :: hexDigitChar (b % 16) :: hexEncode t) = _
    rw [hexChunks_cons2 (hexDigitChar_not_lineTerm (by omega))
      (hexDigitChar_not_lineTerm (by omega))]
    have ht : isBytes t := fun x hx => h x (by simp [hx])
    simp [byteHex, ih ht]

theorem hexDecode_hexEncode {bs : List Nat} (h : isBytes bs) (hne : bs ≠ []) :
    hexDecodeJs (hexEncode bs) = some bs := by
  unfold hexDecodeJs
  rw [hexChunks_hexEncode h]
  rw [if_neg (by cases bs with | nil => exact absurd rfl hne | cons b t => simp)]
  congr 1
  rw [List.map_map]
  have heq : ∀ x ∈ bs, ((fun g => toUint8 (parseIntHex g)) ∘ byteHex) x = id x := by
    intro x hx
    simpa using toUint8_byteHex (h x hx)
  rw [List.map_congr_left heq, List.map_id]

theorem hexChunks_nil_iff (s : JsStr) :
    hexChunks s = [] ↔ ∀ c ∈ s, isLineTerm c = true := by
  induction s with
  | nil => simp [hexChunks]
  | cons c1 rest ih =>
    cases rest with
    | nil =>
      show (if isLineTerm c1 = true then [] else [[c1]]) = [] ↔ _
      by_cases h : isLineTerm c1 = true <;> simp [h]
    | cons c2 rest2 =>
      show (if isLineTerm c1 = true then hexChunks (c2 :: rest2)
        else if isLineTerm c2 = true then [c1] :: hexChunks rest2
        else [c1, c2] :: hexChunks rest2) = [] ↔ _
      by_cases h1 : isLineTerm c1 = true
      · simpa [h1] using ih
      · by_cases h2 : isLineTerm c2 = true <;> simp [h1, h2]

theorem hexVal_not_lineTerm {c v : Nat} (h : hexVal c = some v) :
    isLineTerm c = false := by
  rcases hexVal_cases h with ⟨h1, h2, _⟩ | ⟨h1, h2, _⟩ | ⟨h1, h2, _⟩ <;>
    (simp only [isLineTerm, decide_eq_false_iff_not]; omega)

theorem hexChunks_map_pairs :
    ∀ s : JsStr, allHexDigits s = true → s.length % 2 = 0 →
      (hexChunks s).map (fun g => toUint8 (parseIntHex g)) = specHexPairs s
  | [] => by intro _ _; rfl
  | [c] => by intro _ h; simp at h
  | c1 :: c2 :: rest => by
    intro hx he
    simp only [allHexDigits, List.all_cons, Bool.and_eq_true] at hx
    obtain ⟨h1, h2, hrest⟩ := hx
    obtain ⟨v1, hv1⟩ := Option.isSome_iff_exists.mp h1
    obtain ⟨v2, hv2⟩ := Option.isSome_iff_exists.mp h2
    rw [hexChunks_cons2 (hexVal_not_lineTerm hv1) (hexVal_not_lineTerm hv2)]
    have htail := hexChunks_map_pairs rest hrest (by
      simp only [List.length_cons] at he
      omega)
    simp only [List.map_cons, htail, toUint8_pair hv1 hv2]
    show _ = (16 * (hexVal c1).getD 0 + (hexVal c2).getD 0) :: specHexPairs rest
    rw [hv1, hv2]
    rfl

/-! ## Claim C5: hex decoding -/

/-- C5 counterexample: the hex decoder does NOT fail on non-hex characters
or odd length.  `zz` decodes (parseInt gives NaN, stored as byte 0) and
`abc` decodes with the final lone character parsed on its own, so the
claimed `FormatError` never happens. -/
theorem c5_counterexample :
    hexDecodeJs (jsOf "zz") = some [0] ∧ hexDecodeJs (jsOf "abc") = some [171, 12] := by
  constructor <;> rfl

/-- C5 amended: hex decoding fails (throws `Invalid hex ...`) exactly when
the string has no non-line-terminator character at all; on a string of hex
digits of even length each 2-character group is parsed as one base-16
byte. -/
theorem c5_hex_decode_behaviour (s : JsStr) :
    (hexDecodeJs s = none ↔ ∀ c ∈ s, isLineTerm c = true) ∧
    (allHexDigits s = true → s.length % 2 = 0 → s ≠ [] →
      hexDecodeJs s = some (specHexPairs s)) := by
  constructor
  · unfold hexDecodeJs
    by_cases h : (hexChunks s).isEmpty
    · rw [if_pos h]
      simp only [List.isEmpty_iff] at h
      simpa using (hexChunks_nil_iff s).mp h
    · rw [if_neg h]
      simp only [List.isEmpty_iff] at h
      constructor
      · intro hc
        simp at hc
      · intro hall
        exact absurd ((hexChunks_nil_iff s).mpr hall) h
  · intro hx he hne
    unfold hexDecodeJs
    rw [if_neg, hexChunks_map_pairs s hx he]
    intro hemp
    simp only [List.isEmpty_iff] at hemp
    exact hne ((hexChunks_nil_iff s).mp hemp |> fun hall => by
      cases s with
      | nil => rfl
      | cons c t =>
        exfalso
        have h1 : (hexVal c).isSome := by
          simp only [allHexDigits, List.all_cons, Bool.and_eq_true] at hx
          exact hx.1
        obtain ⟨v, hv⟩ := Option.isSome_iff_exists.mp h1
        have := hexVal_not_lineTerm hv
        have := hall c (by simp)
        simp_all)

/-- C5 witness: the amended theorem applied at the valid input `ab` and the
failing input consisting of a single newline. -/
theorem c5_hex_decode_behaviour_witness :
    hexDecodeJs (jsOf "ab") = some (specHexPairs (jsOf "ab")) ∧
      hexDecodeJs [10] = none :=
  ⟨(c5_hex_decode_behaviour (jsOf "ab")).2 (by decide) (by decide) (by decide),
   (c5_hex_decode_behaviour [10]).1.mpr (by decide)⟩

/-! ## Claim C6: output-encoding priority -/

/-- C6 counterexample: with no output flag set, `rand` returns base64, not
UTF-8 text (the bytes of `hi` come back as `aGk=`, not as the UTF-8 string
`hi`). -/
theorem c6_counterexample :
    randFormat false false false [104, 105] = .str (jsOf "aGk=") ∧
      randFormat false false false [104, 105] ≠ encodeAs .utf8 [104, 105] := by
  constructor <;> decide

/-- C6 amended: every operation picks exactly one output encoding with
priority raw > base64 > hex; the no-flag default is UTF-8 text for the
cipher operation but base64 for `rand`. -/
theorem c6_output_priority (raw b64 hx : Bool) (bytes : List Nat) :
    encSelectOutput raw b64 hx bytes = encodeAs (effectiveEncoding raw b64 hx) bytes ∧
      randFormat raw b64 hx bytes = encodeAs (randEffective raw b64 hx) bytes := by
  cases raw <;> cases b64 <;> cases hx <;>
    simp [encSelectOutput, formatData, encodeAs, effectiveEncoding, randEffective,
      randFormat]

/-! ## Claim C7: MD5 digests always route to the fallback engine -/

/-- C7: when the requested algorithm uppercases to MD5 and the primary
engine rejects every such name (Web Crypto has no MD5), the digest is
computed by the CryptoJS fallback — for the exact string MD5 the primary is
never consulted, and for other case variants its rejection is caught and
routed to the fallback. -/
theorem c7_md5_routes_to_fallback (pd : JsStr → Option (List Nat))
    (cjs : JsStr → List Nat) (alg : JsStr) (halg : jsUpper alg = jsOf "MD5")
    (hpd : ∀ a, jsUpper a = jsOf "MD5" → pd a = none) :
    dgstRoute pd cjs alg = (.fallback, cjs alg) := by
  have hw : webCryptoAlgo alg = alg := by
    unfold webCryptoAlgo
    rw [halg]
    rfl
  unfold dgstRoute
  rw [hw]
  split_ifs with hc
  · rw [hpd alg halg]
  · rfl

/-- C7 witness: a primary engine that rejects MD5 in any case, queried with
the lowercase name `md5`. -/
theorem c7_md5_routes_to_fallback_witness :
    dgstRoute (fun a => if jsUpper a = jsOf "MD5" then none else some [0])
      (fun _ => [1]) (jsOf "md5") = (.fallback, [1]) := by
  have h := c7_md5_routes_to_fallback
    (fun a => if jsUpper a = jsOf "MD5" then none else some [0])
    (fun _ => [1]) (jsOf "md5") (by decide) (fun a ha => by simp [ha])
  simpa using h

/-! ## Claim C9: subject DN parsing -/

/-- C9 counterexample: a value containing `=` does NOT keep everything after
the first `=`: the destructuring `[key, value] = attr.split('=')` keeps only
the text between the first and second `=`, so `/CN=a=b` parses to value `a`,
not `a=b`. -/
theorem c9_counterexample :
    parseSubject "/CN=a=b" = [("CN", "a")] ∧ ("a" : String) ≠ "a=b" := by
  constructor <;> decide

theorem foldl_push_filterMap {a b : Type} (g : a → Option b) :
    ∀ (l : List a) (acc : List b),
      l.foldl (fun ac x => ac ++ (g x).toList) acc = acc ++ l.filterMap g := by
  intro l
  induction l with
  | nil => intro acc; simp
  | cons x u ihu =>
    intro acc
    rw [List.foldl_cons, List.filterMap_cons]
    cases hb : g x with
    | none => simpa [hb] using ihu acc
    | some y => simpa [List.append_assoc] using ihu (acc ++ [y])

/-- C9 amended: `req` splits the subject on `/`, drops the text before the
first `/`, splits each segment on `=`, keeps a segment exactly when the
first two `=`-separated parts are both nonempty — the value is the text
between the first and second `=` (anything after a second `=` is dropped) —
uppercases the name, and preserves segment order (the `filterMap`
characterization). -/
theorem c9_subject_parsing (s : String) :
    parseSubject s =
      ((splitOnChar (Char.ofNat 47) s.data).drop 1).filterMap segAttr := by
  unfold parseSubject
  have hbody : (fun (acc : List (String × String)) (attr : List Char) =>
      match splitOnChar (Char.ofNat 61) attr with
      | key :: value :: _ =>
        if key ≠ [] ∧ value ≠ [] then
          acc ++ [(asciiUpperStr (String.mk key), String.mk value)]
        else acc
      | _ => acc)
      = (fun (acc : List (String × String)) (attr : List Char) =>
          acc ++ (segAttr attr).toList) := by
    funext acc attr
    unfold segAttr
    cases h : splitOnChar (Char.ofNat 61) attr with
    | nil => simp
    | cons k r =>
      cases r with
      | nil => simp
      | cons v tl => by_cases hkv : k ≠ [] ∧ v ≠ [] <;> simp [hkv]
  rw [hbody]
  have h2 := foldl_push_filterMap segAttr
    ((splitOnChar (Char.ofNat 47) s.data).drop 1) []
  simpa using h2

/-! ## Claim C10: EC key requests silently generate RSA keys -/

/-- C10: a `req` call with `keyAlgo = EC` does not fail and generates an RSA
key pair of the requested bit size — exactly what the RSA branch would have
produced. -/
theorem c10_ec_generates_rsa (n : Nat) :
    reqGenerateKeyPair "EC" n = ForgeKeyPair.rsa n ∧
      reqGenerateKeyPair "EC" n = reqGenerateKeyPair "RSA" n := by
  have h1 : reqGenerateKeyPair "EC" n = ForgeKeyPair.rsa n := by
    unfold reqGenerateKeyPair
    rw [if_pos (by decide)]
  have h2 : reqGenerateKeyPair "RSA" n = ForgeKeyPair.rsa n := by
    unfold reqGenerateKeyPair
    rw [if_neg (by decide)]
  exact ⟨h1, h1.trans h2.symm⟩

/-! ## Helper lemmas: base64 codec -/

theorem b64Val_b64Char : ∀ v < 64, b64Val (b64Char v) = some v := by decide

theorem b64Char_not_ws : ∀ v < 64, isB64Ws (b64Char v) = false := by decide

theorem b64Char_ne_pad : ∀ v < 64, b64Char v ≠ 61 := by decide

theorem btoa_args_lt {b1 b2 b3 : Nat} (h1 : b1 < 256) (h2 : b2 < 256) (h3 : b3 < 256) :
    b1 / 4 < 64 ∧ b1 % 4 * 16 + b2 / 16 < 64 ∧ b2 % 16 * 4 + b3 / 64 < 64 ∧
      b3 % 64 < 64 := by omega

theorem isBytes_cons {b : Nat} {t : List Nat} (h : isBytes (b :: t)) :
    b < 256 ∧ isBytes t :=
  ⟨h b (by simp), fun x hx => h x (by simp [hx])⟩

theorem btoa_no_ws : ∀ bs : List Nat, isBytes bs → ∀ c ∈ btoaBytes bs, isB64Ws c = false
  | [] => by intro _ c hc; simp [btoaBytes] at hc
  | [b1] => by
    intro h c hc
    have hb1 : b1 < 256 := h b1 (by simp)
    simp only [btoaBytes, List.mem_cons, List.mem_singleton, List.not_mem_nil,
      or_false] at hc
    rcases hc with rfl | rfl | rfl | rfl
    · exact b64Char_not_ws _ (by omega)
    · exact b64Char_not_ws _ (by omega)
    · rfl
    · rfl
  | [b1, b2] => by
    intro h c hc
    have hb1 : b1 < 256 := h b1 (by simp)
    have hb2 : b2 < 256 := h b2 (by simp)
    simp only [btoaBytes, List.mem_cons, List.mem_singleton, List.not_mem_nil,
      or_false] at hc
    rcases hc with rfl | rfl | rfl | rfl
    · exact b64Char_not_ws _ (by omega)
    · exact b64Char_not_ws _ (by omega)
    · exact b64Char_not_ws _ (by omega)
    · rfl
  | b1 :: b2 :: b3 :: rest => by
    intro h c hc
    have hb1 : b1 < 256 := h b1 (by simp)
    have hb2 : b2 < 256 := h b2 (by simp)
    have hb3 : b3 < 256 := h b3 (by simp)
    have hrest : isBytes rest := fun x hx => h x (by simp [hx])
    simp only [btoaBytes, List.mem_cons] at hc
    rcases hc with rfl | rfl | rfl | rfl | hmem
    · exact b64Char_not_ws _ (by omega)
    · exact b64Char_not_ws _ (by omega)
    · exact b64Char_not_ws _ (by omega)
    · exact b64Char_not_ws _ (by omega)
    · exact btoa_no_ws rest hrest c hmem

theorem btoa_len_mod4 : ∀ bs : List Nat, (btoaBytes bs).length % 4 = 0
  | [] => rfl
  | [_] => by simp [btoaBytes]
  | [_, _] => by simp [btoaBytes]
  | _ :: _ :: _ :: rest => by
    have := btoa_len_mod4 rest
    simp only [btoaBytes, List.length_cons]
    omega

theorem stripPad_append2 (xs : List Nat) : stripPad (xs ++ [61, 61]) = xs := by
  have hr : (xs ++ [61, 61]).reverse = 61 :: 61 :: xs.reverse := by simp
  unfold stripPad
  rw [hr]
  simp

theorem stripPad_snoc_ne {xs : List Nat} {c : Nat} (hc : c ≠ 61) :
    stripPad (xs ++ [c]) = xs ++ [c] := by
  have hr : (xs ++ [c]).reverse = c :: xs.reverse := by simp
  unfold stripPad
  rw [hr]
  cases hx : xs.reverse with
  | nil => simp [hc]
  | cons y ys =>
    by_cases hy : y = 61 <;> simp [hc, hy]

theorem stripPad_snoc_pad {xs : List Nat} {c : Nat} (hc : c ≠ 61) :
    stripPad ((xs ++ [c]) ++ [61]) = xs ++ [c] := by
  have hr : ((xs ++ [c]) ++ [61]).reverse = 61 :: c :: xs.reverse := by simp
  unfold stripPad
  rw [hr]
  simp [hc]

theorem stripPad_append_left {xs ys : List Nat} (h : 2 ≤ ys.length) :
    stripPad (xs ++ ys) = xs ++ stripPad ys := by
  obtain ⟨z1, z2, t, hz⟩ : ∃ z1 z2 t, ys.reverse = z1 :: z2 :: t := by
    cases hy : ys.reverse with
    | nil => simp_all
    | cons z1 r =>
      cases r with
      | nil =>
        exfalso
        have : ys.length = 1 := by
          have := congrArg List.length hy
          simpa using this
        omega
      | cons z2 t => exact ⟨z1, z2, t, rfl⟩
  have hxys : (xs ++ ys).reverse = z1 :: z2 :: (t ++ xs.reverse) := by
    rw [List.reverse_append, hz]
    simp
  have hysr : ys = (z1 :: z2 :: t).reverse := by
    rw [← hz, List.reverse_reverse]
  unfold stripPad
  rw [hxys, hz]
  by_cases h1 : z1 = 61
  · by_cases h2 : z2 = 61
    · subst h1; subst h2
      simp
    · subst h1
      simp [h2, hysr]
  · simp [h1, hysr]

theorem btoa_len_ge4 : ∀ (x : Nat) (t : List Nat), 4 ≤ (btoaBytes (x :: t)).length
  | x, [] => by simp [btoaBytes]
  | x, [y] => by simp [btoaBytes]
  | x, y :: z :: r => by simp [btoaBytes]

theorem strip_btoa : ∀ bs : List Nat, isBytes bs → stripPad (btoaBytes bs) = b64Unpadded bs
  | [] => by intro _; rfl
  | [b1] => by
    intro h
    show stripPad ([b64Char (b1 / 4), b64Char (b1 % 4 * 16)] ++ [61, 61]) = _
    rw [stripPad_append2]
    rfl
  | [b1, b2] => by
    intro h
    have hb2 : b2 < 256 := h b2 (by simp)
    show stripPad (([b64Char (b1 / 4), b64Char (b1 % 4 * 16 + b2 / 16)] ++
      [b64Char (b2 % 16 * 4)]) ++ [61]) = _
    rw [stripPad_snoc_pad (b64Char_ne_pad _ (by omega))]
    rfl
  | b1 :: b2 :: b3 :: rest => by
    intro h
    obtain ⟨hb1, h2⟩ := isBytes_cons h
    obtain ⟨hb2, h3⟩ := isBytes_cons h2
    obtain ⟨hb3, hrest⟩ := isBytes_cons h3
    show stripPad ([b64Char (b1 / 4), b64Char (b1 % 4 * 16 + b2 / 16),
      b64Char (b2 % 16 * 4 + b3 / 64), b64Char (b3 % 64)] ++ btoaBytes rest) = _
    cases rest with
    | nil =>
      show stripPad (([b64Char (b1 / 4), b64Char (b1 % 4 * 16 + b2 / 16),
        b64Char (b2 % 16 * 4 + b3 / 64)] ++ [b64Char (b3 % 64)]) ++ []) = _
      rw [List.append_nil, stripPad_snoc_ne (b64Char_ne_pad _ (by omega))]
      rfl
    | cons x t =>
      rw [stripPad_append_left (le_trans (by omega) (btoa_len_ge4 x t))]
      rw [strip_btoa (x :: t) hrest]
      rfl

theorem unpadded_ne_pad : ∀ bs : List Nat, isBytes bs → ∀ c ∈ b64Unpadded bs, c ≠ 61
  | [] => by intro _ c hc; simp [b64Unpadded] at hc
  | [b1] => by
    intro h c hc
    have hb1 : b1 < 256 := h b1 (by simp)
    simp only [b64Unpadded, List.mem_cons, List.mem_singleton,
      List.not_mem_nil, or_false] at hc
    rcases hc with rfl | rfl <;> exact b64Char_ne_pad _ (by omega)
  | [b1, b2] => by
    intro h c hc
    have hb1 : b1 < 256 := h b1 (by simp)
    have hb2 : b2 < 256 := h b2 (by simp)
    simp only [b64Unpadded, List.mem_cons, List.mem_singleton,
      List.not_mem_nil, or_false] at hc
    rcases hc with rfl | rfl | rfl <;> exact b64Char_ne_pad _ (by omega)
  | b1 :: b2 :: b3 :: rest => by
    intro h c hc
    obtain ⟨hb1, h2⟩ := isBytes_cons h
    obtain ⟨hb2, h3⟩ := isBytes_cons h2
    obtain ⟨hb3, hrest⟩ := isBytes_cons h3
    simp only [b64Unpadded, List.mem_cons] at hc
    rcases hc with rfl | rfl | rfl | rfl | hmem
    · exact b64Char_ne_pad _ (by omega)
    · exact b64Char_ne_pad _ (by omega)
    · exact b64Char_ne_pad _ (by omega)
    · exact b64Char_ne_pad _ (by omega)
    · exact unpadded_ne_pad rest hrest c hmem

theorem atobCore_unpadded : ∀ bs : List Nat, isBytes bs →
    atobCore (b64Unpadded bs) = some bs
  | [] => by intro _; rfl
  | [b1] => by
    intro h
    have hb1 : b1 < 256 := h b1 (by simp)
    show atobCore [b64Char (b1 / 4), b64Char (b1 % 4 * 16)] = _
    unfold atobCore
    rw [b64Val_b64Char _ (by omega), b64Val_b64Char _ (by omega)]
    have e1 : b1 / 4 * 4 + b1 % 4 * 16 / 16 = b1 := by omega
    show some [b1 / 4 * 4 + b1 % 4 * 16 / 16] = some [b1]
    rw [e1]
  | [b1, b2] => by
    intro h
    have hb1 : b1 < 256 := h b1 (by simp)
    have hb2 : b2 < 256 := h b2 (by simp)
    show atobCore [b64Char (b1 / 4), b64Char (b1 % 4 * 16 + b2 / 16),
      b64Char (b2 % 16 * 4)] = _
    unfold atobCore
    rw [b64Val_b64Char _ (by omega), b64Val_b64Char _ (by omega),
      b64Val_b64Char _ (by omega)]
    have e1 : b1 / 4 * 4 + (b1 % 4 * 16 + b2 / 16) / 16 = b1 := by omega
    have e2 : (b1 % 4 * 16 + b2 / 16) % 16 * 16 + b2 % 16 * 4 / 4 = b2 := by omega
    show some [b1 / 4 * 4 + (b1 % 4 * 16 + b2 / 16) / 16,
      (b1 % 4 * 16 + b2 / 16) % 16 * 16 + b2 % 16 * 4 / 4] = some [b1, b2]
    rw [e1, e2]
  | b1 :: b2 :: b3 :: rest => by
    intro h
    obtain ⟨hb1, h2⟩ := isBytes_cons h
    obtain ⟨hb2, h3⟩ := isBytes_cons h2
    obtain ⟨hb3, hrest⟩ := isBytes_cons h3
    show atobCore (b64Char (b1 / 4) :: b64Char (b1 % 4 * 16 + b2 / 16) ::
      b64Char (b2 % 16 * 4 + b3 / 64) :: b64Char (b3 % 64) :: b64Unpadded rest) = _
    unfold atobCore
    rw [b64Val_b64Char _ (by omega), b64Val_b64Char _ (by omega),
      b64Val_b64Char _ (by omega), b64Val_b64Char _ (by omega),
      atobCore_unpadded rest hrest]
    have e1 : b1 / 4 * 4 + (b1 % 4 * 16 + b2 / 16) / 16 = b1 := by omega
    have e2 : (b1 % 4 * 16 + b2 / 16) % 16 * 16 + (b2 % 16 * 4 + b3 / 64) / 4 = b2 := by
      omega
    have e3 : (b2 % 16 * 4 + b3 / 64) % 4 * 64 + b3 % 64 = b3 := by omega
    show some ((b1 / 4 * 4 + (b1 % 4 * 16 + b2 / 16) / 16) ::
      ((b1 % 4 * 16 + b2 / 16) % 16 * 16 + (b2 % 16 * 4 + b3 / 64) / 4) ::
      ((b2 % 16 * 4 + b3 / 64) % 4 * 64 + b3 % 64) :: rest)
      = some (b1 :: b2 :: b3 :: rest)
    rw [e1, e2, e3]

theorem atob_btoa {bs : List Nat} (h : isBytes bs) :
    atobBytes (btoaBytes bs) = some bs := by
  have hstrip : atobStrip (btoaBytes bs) = b64Unpadded bs := by
    unfold atobStrip
    rw [if_pos (btoa_len_mod4 bs)]
    exact strip_btoa bs h
  unfold atobBytes
  rw [List.filter_eq_self.mpr (by
    intro c hc
    simp [btoa_no_ws bs h c hc]), hstrip]
  rw [if_neg (by
    intro hany
    rw [List.any_eq_true] at hany
    obtain ⟨c, hc, hceq⟩ := hany
    exact unpadded_ne_pad bs h c hc (by simpa using hceq))]
  exact atobCore_unpadded bs h

/-! ## Helper lemmas: CryptoJS base64 parse agrees with `btoa` -/

theorem lor_mul4 : ∀ x < 64, ∀ y < 4, Nat.lor (4 * x) y = 4 * x + y := by decide

theorem lor_mul16 : ∀ x < 64, ∀ y < 16, Nat.lor (16 * x) y = 16 * x + y := by decide

theorem lor_mul64 : ∀ x < 64, ∀ y < 64, Nat.lor (64 * x) y = 64 * x + y := by decide

theorem cjsB64Byte_1 {v1 v2 : Nat} (h1 : v1 < 64) (h2 : v2 < 64) :
    cjsB64Byte 1 (b64Char v1) (b64Char v2) = v1 * 4 + v2 / 16 := by
  unfold cjsB64Byte
  rw [b64Val_b64Char _ h1, b64Val_b64Char _ h2]
  show Nat.lor (v1 <<< 2) (v2 >>> 4) % 256 = v1 * 4 + v2 / 16
  rw [Nat.shiftLeft_eq, Nat.shiftRight_eq_div_pow]
  rw [show v1 * 2 ^ 2 = 4 * v1 by ring]
  rw [lor_mul4 v1 h1 (v2 / 2 ^ 4) (by omega)]
  omega

theorem cjsB64Byte_2 {v2 v3 : Nat} (h2 : v2 < 64) (h3 : v3 < 64) :
    cjsB64Byte 2 (b64Char v2) (b64Char v3) = (16 * v2 + v3 / 4) % 256 := by
  unfold cjsB64Byte
  rw [b64Val_b64Char _ h2, b64Val_b64Char _ h3]
  show Nat.lor (v2 <<< 4) (v3 >>> 2) % 256 = (16 * v2 + v3 / 4) % 256
  rw [Nat.shiftLeft_eq, Nat.shiftRight_eq_div_pow]
  rw [show v2 * 2 ^ 4 = 16 * v2 by ring]
  rw [lor_mul16 v2 h2 (v3 / 2 ^ 2) (by omega)]

theorem cjsB64Byte_3 {v3 v4 : Nat} (h3 : v3 < 64) (h4 : v4 < 64) :
    cjsB64Byte 3 (b64Char v3) (b64Char v4) = (64 * v3 + v4) % 256 := by
  unfold cjsB64Byte
  rw [b64Val_b64Char _ h3, b64Val_b64Char _ h4]
  show Nat.lor (v3 <<< 6) (v4 >>> 0) % 256 = (64 * v3 + v4) % 256
  rw [Nat.shiftLeft_eq, Nat.shiftRight_eq_div_pow]
  rw [show v3 * 2 ^ 6 = 64 * v3 by ring]
  rw [lor_mul64 v3 h3 (v4 / 2 ^ 0) (by omega)]
  norm_num

theorem takeWhile_btoa : ∀ bs : List Nat, isBytes bs →
    (btoaBytes bs).takeWhile (· ≠ 61) = b64Unpadded bs
  | [] => by intro _; rfl
  | [b1] => by
    intro h
    have hb1 : b1 < 256 := h b1 (by simp)
    show List.takeWhile (· ≠ 61)
      [b64Char (b1 / 4), b64Char (b1 % 4 * 16), 61, 61] = _
    simp [List.takeWhile, b64Char_ne_pad _ (show b1 / 4 < 64 by omega),
      b64Char_ne_pad _ (show b1 % 4 * 16 < 64 by omega), b64Unpadded]
  | [b1, b2] => by
    intro h
    have hb1 : b1 < 256 := h b1 (by simp)
    have hb2 : b2 < 256 := h b2 (by simp)
    show List.takeWhile (· ≠ 61)
      [b64Char (b1 / 4), b64Char (b1 % 4 * 16 + b2 / 16), b64Char (b2 % 16 * 4), 61] = _
    simp [List.takeWhile, b64Char_ne_pad _ (show b1 / 4 < 64 by omega),
      b64Char_ne_pad _ (show b1 % 4 * 16 + b2 / 16 < 64 by omega),
      b64Char_ne_pad _ (show b2 % 16 * 4 < 64 by omega), b64Unpadded]
  | b1 :: b2 :: b3 :: rest => by
    intro h
    obtain ⟨hb1, h2⟩ := isBytes_cons h
    obtain ⟨hb2, h3⟩ := isBytes_cons h2
    obtain ⟨hb3, hrest⟩ := isBytes_cons h3
    show List.takeWhile (· ≠ 61) (b64Char (b1 / 4) :: b64Char (b1 % 4 * 16 + b2 / 16) ::
      b64Char (b2 % 16 * 4 + b3 / 64) :: b64Char (b3 % 64) :: btoaBytes rest) = _
    rw [List.takeWhile_cons_of_pos (by
      simpa using b64Char_ne_pad _ (show b1 / 4 < 64 by omega))]
    rw [List.takeWhile_cons_of_pos (by
      simpa using b64Char_ne_pad _ (show b1 % 4 * 16 + b2 / 16 < 64 by omega))]
    rw [List.takeWhile_cons_of_pos (by
      simpa using b64Char_ne_pad _ (show b2 % 16 * 4 + b3 / 64 < 64 by omega))]
    rw [List.takeWhile_cons_of_pos (by
      simpa using b64Char_ne_pad _ (show b3 % 64 < 64 by omega))]
    rw [takeWhile_btoa rest hrest]
    rfl

theorem cjsB64Core_unpadded : ∀ bs : List Nat, isBytes bs →
    cjsB64Core (b64Unpadded bs) = bs
  | [] => by intro _; rfl
  | [b1] => by
    intro h
    have hb1 : b1 < 256 := h b1 (by simp)
    show cjsB64Core [b64Char (b1 / 4), b64Char (b1 % 4 * 16)] = [b1]
    unfold cjsB64Core
    rw [cjsB64Byte_1 (by omega) (by omega)]
    have : b1 / 4 * 4 + b1 % 4 * 16 / 16 = b1 := by omega
    rw [this]
  | [b1, b2] => by
    intro h
    have hb1 : b1 < 256 := h b1 (by simp)
    have hb2 : b2 < 256 := h b2 (by simp)
    show cjsB64Core [b64Char (b1 / 4), b64Char (b1 % 4 * 16 + b2 / 16),
      b64Char (b2 % 16 * 4)] = [b1, b2]
    unfold cjsB64Core
    rw [cjsB64Byte_1 (by omega) (by omega), cjsB64Byte_2 (by omega) (by omega)]
    have e1 : b1 / 4 * 4 + (b1 % 4 * 16 + b2 / 16) / 16 = b1 := by omega
    have e2 : (16 * (b1 % 4 * 16 + b2 / 16) + b2 % 16 * 4 / 4) % 256 = b2 := by omega
    rw [e1, e2]
  | b1 :: b2 :: b3 :: rest => by
    intro h
    obtain ⟨hb1, h2⟩ := isBytes_cons h
    obtain ⟨hb2, h3⟩ := isBytes_cons h2
    obtain ⟨hb3, hrest⟩ := isBytes_cons h3
    show cjsB64Core (b64Char (b1 / 4) :: b64Char (b1 % 4 * 16 + b2 / 16) ::
      b64Char (b2 % 16 * 4 + b3 / 64) :: b64Char (b3 % 64) :: b64Unpadded rest)
      = b1 :: b2 :: b3 :: rest
    cases hrt : b64Unpadded rest with
    | nil =>
      have hnil : rest = [] := by
        cases rest with
        | nil => rfl
        | cons x t =>
          exfalso
          cases t with
          | nil => simp [b64Unpadded] at hrt
          | cons y u =>
            cases u with
            | nil => simp [b64Unpadded] at hrt
            | cons z v => simp [b64Unpadded] at hrt
      subst hnil
      show cjsB64Core [b64Char (b1 / 4), b64Char (b1 % 4 * 16 + b2 / 16),
        b64Char (b2 % 16 * 4 + b3 / 64), b64Char (b3 % 64)] = [b1, b2, b3]
      unfold cjsB64Core
      rw [cjsB64Byte_1 (by omega) (by omega), cjsB64Byte_2 (by omega) (by omega),
        cjsB64Byte_3 (by omega) (by omega)]
      have e1 : b1 / 4 * 4 + (b1 % 4 * 16 + b2 / 16) / 16 = b1 := by omega
      have e2 : (16 * (b1 % 4 * 16 + b2 / 16) + (b2 % 16 * 4 + b3 / 64) / 4) % 256
          = b2 := by omega
      have e3 : (64 * (b2 % 16 * 4 + b3 / 64) + b3 % 64) % 256 = b3 := by omega
      rw [e1, e2, e3]
      rfl
    | cons x t =>
      rw [← hrt]
      show cjsB64Byte 1 (b64Char (b1 / 4)) (b64Char (b1 % 4 * 16 + b2 / 16)) ::
        cjsB64Byte 2 (b64Char (b1 % 4 * 16 + b2 / 16)) (b64Char (b2 % 16 * 4 + b3 / 64)) ::
        cjsB64Byte 3 (b64Char (b2 % 16 * 4 + b3 / 64)) (b64Char (b3 % 64)) ::
        cjsB64Core (b64Unpadded rest) = _
      rw [cjsB64Byte_1 (by omega) (by omega), cjsB64Byte_2 (by omega) (by omega),
        cjsB64Byte_3 (by omega) (by omega), cjsB64Core_unpadded rest hrest]
      have e1 : b1 / 4 * 4 + (b1 % 4 * 16 + b2 / 16) / 16 = b1 := by omega
      have e2 : (16 * (b1 % 4 * 16 + b2 / 16) + (b2 % 16 * 4 + b3 / 64) / 4) % 256
          = b2 := by omega
      have e3 : (64 * (b2 % 16 * 4 + b3 / 64) + b3 % 64) % 256 = b3 := by omega
      rw [e1, e2, e3]

theorem cjsBase64Parse_btoa {bs : List Nat} (h : isBytes bs) :
    cjsBase64Parse (btoaBytes bs) = bs := by
  unfold cjsBase64Parse
  rw [takeWhile_btoa bs h]
  exact cjsB64Core_unpadded bs h

/-! ## Claim C8: the rand contract -/

theorem drawBytes_length (ent : Nat → Nat) (pos n : Nat) :
    (drawBytes ent pos n).length = n := by simp [drawBytes]

theorem drawBytes_isBytes (ent : Nat → Nat) (pos n : Nat) :
    isBytes (drawBytes ent pos n) := by
  intro b hb
  simp only [drawBytes, List.mem_map] at hb
  obtain ⟨i, _, rfl⟩ := hb
  omega

/-- C8: `rand` fails with `Invalid length` exactly when the requested length
is not a positive integer, and for every positive integer `n` the result,
decoded from the output encoding the call chose, is exactly the `n`
generated bytes. -/
theorem c8_rand_contract :
    (∀ (q : ℚ) (raw b64 hx : Bool) (ent : Nat → Nat),
      randModel q raw b64 hx ent = .error "Invalid length: must be positive integer" ↔
        ¬(q.den = 1 ∧ 0 < q)) ∧
    (∀ (n : Nat) (raw b64 hx : Bool) (ent : Nat → Nat), 0 < n →
      ∃ v bs, randModel (n : ℚ) raw b64 hx ent = .ok v ∧
        decodeAs (randEffective raw b64 hx) v = some bs ∧ bs.length = n) := by
  constructor
  · intro q raw b64 hx ent
    unfold randModel
    by_cases hq : q.den = 1 ∧ 0 < q
    · rw [if_neg (by simpa using hq)]
      simp [hq]
    · rw [if_pos (by
        simp only [Bool.not_eq_eq_eq_not, Bool.not_true, decide_eq_false_iff_not]
        exact hq)]
      simp [hq]
  · intro n raw b64 hx ent hn
    have hden : ((n : ℚ)).den = 1 := Rat.den_natCast n
    have hpos : 0 < (n : ℚ) := by exact_mod_cast hn
    have hnum : ((n : ℚ)).num.toNat = n := by
      rw [Rat.num_natCast]
      exact Int.toNat_natCast n
    have hbytes := drawBytes_isBytes ent 0 n
    have hne : drawBytes ent 0 n ≠ [] := by
      intro hc
      have := drawBytes_length ent 0 n
      rw [hc] at this
      simp at this
      omega
    refine ⟨randFormat raw b64 hx (drawBytes ent 0 n), drawBytes ent 0 n, ?_, ?_,
      drawBytes_length ent 0 n⟩
    · unfold randModel
      rw [if_neg (by simp [hden, hpos]), hnum]
    · cases raw
      · cases b64
        · cases hx
          · simpa [randFormat, randEffective, decodeAs] using
              atob_btoa hbytes
          · simpa [randFormat, randEffective, decodeAs] using
              hexDecode_hexEncode hbytes hne
        · simpa [randFormat, randEffective, decodeAs] using
            atob_btoa hbytes
      · simp [randFormat, randEffective, decodeAs]

/-- C8 witness: `rand({length: 0})` fails with `InvalidLength` and
`rand({length: 16})` yields exactly 16 bytes under the default encoding. -/
theorem c8_rand_contract_witness :
    randModel (0 : ℚ) false false false (fun _ => 0)
        = .error "Invalid length: must be positive integer" ∧
      ∃ v bs, randModel ((16 : Nat) : ℚ) false false false (fun _ => 0) = .ok v ∧
        decodeAs (randEffective false false false) v = some bs ∧ bs.length = 16 :=
  ⟨(c8_rand_contract.1 0 false false false (fun _ => 0)).mpr (by norm_num),
   c8_rand_contract.2 16 false false false (fun _ => 0) (by norm_num)⟩

/-! ## Helper lemmas: UTF-8 round trip on valid byte sequences -/

theorem isCont_iff {b : Nat} : isCont b = true ↔ 0x80 ≤ b ∧ b ≤ 0xBF := by
  simp [isCont]

theorem utf8Second_bounds {b1 b2 : Nat} (h : utf8Second b1 b2 = true) :
    0x80 ≤ b2 ∧ b2 ≤ 0xBF ∧ (b1 = 0xE0 → 0xA0 ≤ b2) ∧ (b1 = 0xED → b2 ≤ 0x9F) := by
  unfold utf8Second at h
  split_ifs at h with hE0 hED
  · simp only [decide_eq_true_eq] at h
    exact ⟨by omega, by omega, fun _ => by omega, fun hc => by omega⟩
  · simp only [decide_eq_true_eq] at h
    exact ⟨by omega, by omega, fun hc => absurd hc hE0, fun _ => by omega⟩
  · rw [isCont_iff] at h
    exact ⟨h.1, h.2, fun hc => absurd hc hE0, fun hc => absurd hc hED⟩

theorem utf8Second4_bounds {b1 b2 : Nat} (h : utf8Second4 b1 b2 = true) :
    0x80 ≤ b2 ∧ b2 ≤ 0xBF ∧ (b1 = 0xF0 → 0x90 ≤ b2) ∧ (b1 = 0xF4 → b2 ≤ 0x8F) := by
  unfold utf8Second4 at h
  split_ifs at h with hF0 hF4
  · simp only [decide_eq_true_eq] at h
    exact ⟨by omega, by omega, fun _ => by omega, fun hc => by omega⟩
  · simp only [decide_eq_true_eq] at h
    exact ⟨by omega, by omega, fun hc => absurd hc hF0, fun _ => by omega⟩
  · rw [isCont_iff] at h
    exact ⟨h.1, h.2, fun hc => absurd hc hF0, fun hc => absurd hc hF4⟩

theorem utf16ToScalars_cons_bmp {u : Nat} (rest : List Nat)
    (h1 : ¬(0xD800 ≤ u ∧ u ≤ 0xDBFF)) (h2 : ¬(0xDC00 ≤ u ∧ u ≤ 0xDFFF)) :
    utf16ToScalars (u :: rest) = u :: utf16ToScalars rest := by
  rw [utf16ToScalars.eq_def]
  dsimp only
  rw [if_neg h1, if_neg h2]

theorem utf16ToScalars_pair {u l : Nat} (rest : List Nat)
    (hu : 0xD800 ≤ u ∧ u ≤ 0xDBFF) (hl : 0xDC00 ≤ l ∧ l ≤ 0xDFFF) :
    utf16ToScalars (u :: l :: rest) =
      (0x10000 + (u - 0xD800) * 0x400 + (l - 0xDC00)) :: utf16ToScalars rest := by
  rw [utf16ToScalars.eq_def]
  dsimp only
  rw [if_pos hu, if_pos hl]

theorem utf16_of_scalars :
    ∀ cps : List Nat, (∀ cp ∈ cps, goodScalar cp) →
      utf16ToScalars (scalarsToUtf16 cps) = cps
  | [] => by intro _; rfl
  | cp :: t => by
    intro h
    obtain ⟨hcp, hst⟩ : goodScalar cp ∧ ∀ x ∈ t, goodScalar x :=
      ⟨h cp (by simp), fun x hx => h x (by simp [hx])⟩
    have iht := utf16_of_scalars t hst
    by_cases hb : cp < 0x10000
    · have hsc : scalarsToUtf16 (cp :: t) = cp :: scalarsToUtf16 t := by
        unfold scalarsToUtf16
        rw [List.flatMap_cons, if_pos hb]
        rfl
      rcases hcp.2 with hlo | hhi <;>
        rw [hsc, utf16ToScalars_cons_bmp _ (by omega) (by omega), iht]
    · have hsc : scalarsToUtf16 (cp :: t) =
          (0xD800 + (cp - 0x10000) / 0x400) :: (0xDC00 + (cp - 0x10000) % 0x400) ::
            scalarsToUtf16 t := by
        unfold scalarsToUtf16
        rw [List.flatMap_cons, if_neg hb]
        rfl
      have hdivlt : (cp - 0x10000) / 0x400 < 0x400 := by
        have := hcp.1
        omega
      rw [hsc, utf16ToScalars_pair _ (by omega) (by omega), iht]
      have hrec : 0x10000 + (0xD800 + (cp - 0x10000) / 0x400 - 0xD800) * 0x400 +
          (0xDC00 + (cp - 0x10000) % 0x400 - 0xDC00) = cp := by omega
      rw [hrec]

theorem validUtf8_ascii {b1 : Nat} (rest : List Nat) (h1 : b1 < 0x80) :
    validUtf8 (b1 :: rest) = validUtf8 rest := by
  rw [validUtf8.eq_def]
  dsimp only
  rw [if_pos h1]

theorem utf8DecodeScalars_ascii {b1 : Nat} (rest : List Nat) (h1 : b1 < 0x80) :
    utf8DecodeScalars (b1 :: rest) = b1 :: utf8DecodeScalars rest := by
  rw [utf8DecodeScalars.eq_def]
  dsimp only
  rw [if_pos h1]

set_option maxRecDepth 4096 in
theorem utf8_decode_encode :
    ∀ (N : Nat) (bs : List Nat), bs.length ≤ N → validUtf8 bs = true →
      (utf8DecodeScalars bs).flatMap utf8Bytes = bs ∧
        ∀ cp ∈ utf8DecodeScalars bs, goodScalar cp := by
  intro N
  induction N with
  | zero =>
    intro bs hlen _
    have hb : bs = [] := by
      cases bs with
      | nil => rfl
      | cons a t => simp at hlen
    subst hb
    exact ⟨rfl, by intro cp hcp; simp [utf8DecodeScalars] at hcp⟩
  | succ N ihN =>
    intro bs hlen hv
    cases bs with
    | nil => exact ⟨rfl, by intro cp hcp; simp [utf8DecodeScalars] at hcp⟩
    | cons b1 rest =>
    simp only [List.length_cons] at hlen
    by_cases h1 : b1 < 0x80
    · -- ASCII byte
      rw [validUtf8_ascii rest h1] at hv
      obtain ⟨ih1, ih2⟩ := ihN rest (by omega) hv
      rw [utf8DecodeScalars_ascii rest h1]
      refine ⟨?_, ?_⟩
      · rw [List.flatMap_cons, ih1]
        have hb1 : utf8Bytes b1 = [b1] := by
          unfold utf8Bytes
          rw [if_pos h1]
        rw [hb1]
        rfl
      · intro cp hcp
        rcases List.mem_cons.mp hcp with rfl | hmem
        · exact ⟨by omega, by omega⟩
        · exact ih2 cp hmem
    · by_cases h2 : 0xC2 ≤ b1 ∧ b1 ≤ 0xDF
      · -- 2-byte sequence
        cases rest with
        | nil =>
          exfalso
          rw [validUtf8.eq_def] at hv
          dsimp only at hv
          rw [if_neg h1, if_pos h2] at hv
          simp at hv
        | cons b2 rest2 =>
        rw [validUtf8.eq_def] at hv
        dsimp only at hv
        rw [if_neg h1, if_pos h2] at hv
        have hsplit : isCont b2 = true ∧ validUtf8 rest2 = true := by
          by_cases hc : isCont b2 = true
          · rw [if_pos hc] at hv
            exact ⟨hc, hv⟩
          · rw [if_neg hc] at hv
            exact absurd hv Bool.false_ne_true
        obtain ⟨hc2, hrest⟩ := hsplit
        have hb2 := isCont_iff.mp hc2
        obtain ⟨ih1, ih2⟩ := ihN rest2 (by simp only [List.length_cons] at hlen; omega) hrest
        have hd : utf8DecodeScalars (b1 :: b2 :: rest2) =
            ((b1 - 0xC0) * 64 + (b2 - 0x80)) :: utf8DecodeScalars rest2 := by
          rw [utf8DecodeScalars.eq_def]
          dsimp only
          rw [if_neg h1, if_pos h2, if_pos hc2]
        rw [hd]
        refine ⟨?_, ?_⟩
        · rw [List.flatMap_cons, ih1]
          have henc : utf8Bytes ((b1 - 0xC0) * 64 + (b2 - 0x80)) = [b1, b2] := by
            unfold utf8Bytes
            rw [if_neg (by omega), if_pos (by omega)]
            have e1 : 0xC0 + ((b1 - 0xC0) * 64 + (b2 - 0x80)) / 64 = b1 := by omega
            have e2 : 0x80 + ((b1 - 0xC0) * 64 + (b2 - 0x80)) % 64 = b2 := by omega
            rw [e1, e2]
          rw [henc]
          rfl
        · intro cp hcp
          rcases List.mem_cons.mp hcp with rfl | hmem
          · exact ⟨by omega, by omega⟩
          · exact ih2 cp hmem
      · by_cases h3 : 0xE0 ≤ b1 ∧ b1 ≤ 0xEF
        · -- 3-byte sequence
          cases rest with
          | nil =>
            exfalso
            rw [validUtf8.eq_def] at hv
            dsimp only at hv
            rw [if_neg h1, if_neg h2, if_pos h3] at hv
            simp at hv
          | cons b2 rest2 =>
          cases rest2 with
          | nil =>
            exfalso
            rw [validUtf8.eq_def] at hv
            dsimp only at hv
            rw [if_neg h1, if_neg h2, if_pos h3] at hv
            simp at hv
          | cons b3 rest3 =>
          rw [validUtf8.eq_def] at hv
          dsimp only at hv
          rw [if_neg h1, if_neg h2, if_pos h3] at hv
          have hsplit : utf8Second b1 b2 = true ∧ isCont b3 = true ∧
              validUtf8 rest3 = true := by
            by_cases hs : utf8Second b1 b2 = true
            · rw [if_pos hs] at hv
              by_cases hc : isCont b3 = true
              · rw [if_pos hc] at hv
                exact ⟨hs, hc, hv⟩
              · rw [if_neg hc] at hv
                exact absurd hv Bool.false_ne_true
            · rw [if_neg hs] at hv
              exact absurd hv Bool.false_ne_true
          obtain ⟨hs2, hc3, hrest⟩ := hsplit
          obtain ⟨hb2lo, hb2hi, hE0, hED⟩ := utf8Second_bounds hs2
          have hb3 := isCont_iff.mp hc3
          obtain ⟨ih1, ih2⟩ := ihN rest3
            (by simp only [List.length_cons] at hlen; omega) hrest
          have hd : utf8DecodeScalars (b1 :: b2 :: b3 :: rest3) =
              ((b1 - 0xE0) * 4096 + (b2 - 0x80) * 64 + (b3 - 0x80)) ::
                utf8DecodeScalars rest3 := by
            rw [utf8DecodeScalars.eq_def]
            dsimp only
            rw [if_neg h1, if_neg h2, if_pos h3, if_pos hs2, if_pos hc3]
          have hcp_range : 0x800 ≤ (b1 - 0xE0) * 4096 + (b2 - 0x80) * 64 + (b3 - 0x80) ∧
              (b1 - 0xE0) * 4096 + (b2 - 0x80) * 64 + (b3 - 0x80) < 0x10000 := by
            by_cases hE : b1 = 0xE0
            · have := hE0 hE
              constructor <;> omega
            · constructor <;> omega
          rw [hd]
          refine ⟨?_, ?_⟩
          · rw [List.flatMap_cons, ih1]
            have henc : utf8Bytes ((b1 - 0xE0) * 4096 + (b2 - 0x80) * 64 + (b3 - 0x80))
                = [b1, b2, b3] := by
              unfold utf8Bytes
              rw [if_neg (by omega), if_neg (by omega), if_pos (by omega)]
              have e1 : 0xE0 + ((b1 - 0xE0) * 4096 + (b2 - 0x80) * 64 + (b3 - 0x80)) / 4096
                  = b1 := by omega
              have e2 : 0x80 +
                  ((b1 - 0xE0) * 4096 + (b2 - 0x80) * 64 + (b3 - 0x80)) / 64 % 64 = b2 := by
                omega
              have e3 : 0x80 + ((b1 - 0xE0) * 4096 + (b2 - 0x80) * 64 + (b3 - 0x80)) % 64
                  = b3 := by omega
              rw [e1, e2, e3]
            rw [henc]
            rfl
          · intro cp hcp
            rcases List.mem_cons.mp hcp with rfl | hmem
            · refine ⟨by omega, ?_⟩
              by_cases hE : b1 = 0xED
              · have := hED hE
                left
                omega
              · by_cases hlt : b1 < 0xED
                · left
                  omega
                · right
                  omega
            · exact ih2 cp hmem
        · by_cases h4 : 0xF0 ≤ b1 ∧ b1 ≤ 0xF4
          · -- 4-byte sequence
            cases rest with
            | nil =>
              exfalso
              rw [validUtf8.eq_def] at hv
              dsimp only at hv
              rw [if_neg h1, if_neg h2, if_neg h3, if_pos h4] at hv
              simp at hv
            | cons b2 rest2 =>
            cases rest2 with
            | nil =>
              exfalso
              rw [validUtf8.eq_def] at hv
              dsimp only at hv
              rw [if_neg h1, if_neg h2, if_neg h3, if_pos h4] at hv
              simp at hv
            | cons b3 rest3 =>
            cases rest3 with
            | nil =>
              exfalso
              rw [validUtf8.eq_def] at hv
              dsimp only at hv
              rw [if_neg h1, if_neg h2, if_neg h3, if_pos h4] at hv
              simp at hv
            | cons b4 rest4 =>
            rw [validUtf8.eq_def] at hv
            dsimp only at hv
            rw [if_neg h1, if_neg h2, if_neg h3, if_pos h4] at hv
            have hsplit : utf8Second4 b1 b2 = true ∧ isCont b3 = true ∧
                isCont b4 = true ∧ validUtf8 rest4 = true := by
              by_cases hs : utf8Second4 b1 b2 = true
              · rw [if_pos hs] at hv
                by_cases hc : isCont b3 = true
                · rw [if_pos hc] at hv
                  by_cases hc4 : isCont b4 = true
                  · rw [if_pos hc4] at hv
                    exact ⟨hs, hc, hc4, hv⟩
                  · rw [if_neg hc4] at hv
                    exact absurd hv Bool.false_ne_true
                · rw [if_neg hc] at hv
                  exact absurd hv Bool.false_ne_true
              · rw [if_neg hs] at hv
                exact absurd hv Bool.false_ne_true
            obtain ⟨hs2, hc3, hc4, hrest⟩ := hsplit
            obtain ⟨hb2lo, hb2hi, hF0, hF4⟩ := utf8Second4_bounds hs2
            have hb3 := isCont_iff.mp hc3
            have hb4 := isCont_iff.mp hc4
            obtain ⟨ih1, ih2⟩ := ihN rest4
              (by simp only [List.length_cons] at hlen; omega) hrest
            have hd : utf8DecodeScalars (b1 :: b2 :: b3 :: b4 :: rest4) =
                ((b1 - 0xF0) * 262144 + (b2 - 0x80) * 4096 + (b3 - 0x80) * 64 +
                  (b4 - 0x80)) :: utf8DecodeScalars rest4 := by
              rw [utf8DecodeScalars.eq_def]
              dsimp only
              rw [if_neg h1, if_neg h2, if_neg h3, if_pos h4, if_pos hs2, if_pos hc3,
                if_pos hc4]
            have hcp_range :
                0x10000 ≤ (b1 - 0xF0) * 262144 + (b2 - 0x80) * 4096 + (b3 - 0x80) * 64 +
                  (b4 - 0x80) ∧
                (b1 - 0xF0) * 262144 + (b2 - 0x80) * 4096 + (b3 - 0x80) * 64 + (b4 - 0x80)
                  < 1114112 := by
              by_cases hF : b1 = 0xF0
              · have := hF0 hF
                constructor <;> omega
              · by_cases hF44 : b1 = 0xF4
                · have := hF4 hF44
                  constructor <;> omega
                · constructor <;> omega
            rw [hd]
            refine ⟨?_, ?_⟩
            · rw [List.flatMap_cons, ih1]
              have henc : utf8Bytes ((b1 - 0xF0) * 262144 + (b2 - 0x80) * 4096 +
                  (b3 - 0x80) * 64 + (b4 - 0x80)) = [b1, b2, b3, b4] := by
                unfold utf8Bytes
                rw [if_neg (by omega), if_neg (by omega), if_neg (by omega)]
                have e1 : 0xF0 + ((b1 - 0xF0) * 262144 + (b2 - 0x80) * 4096 +
                    (b3 - 0x80) * 64 + (b4 - 0x80)) / 262144 = b1 := by omega
                have e2 : 0x80 + ((b1 - 0xF0) * 262144 + (b2 - 0x80) * 4096 +
                    (b3 - 0x80) * 64 + (b4 - 0x80)) / 4096 % 64 = b2 := by omega
                have e3 : 0x80 + ((b1 - 0xF0) * 262144 + (b2 - 0x80) * 4096 +
                    (b3 - 0x80) * 64 + (b4 - 0x80)) / 64 % 64 = b3 := by omega
                have e4 : 0x80 + ((b1 - 0xF0) * 262144 + (b2 - 0x80) * 4096 +
                    (b3 - 0x80) * 64 + (b4 - 0x80)) % 64 = b4 := by omega
                rw [e1, e2, e3, e4]
              rw [henc]
              rfl
            · intro cp hcp
              rcases List.mem_cons.mp hcp with rfl | hmem
              · exact ⟨by omega, by omega⟩
              · exact ih2 cp hmem
          · -- invalid lead byte: validity is refuted
            exfalso
            rw [validUtf8.eq_def] at hv
            dsimp only at hv
            rw [if_neg h1, if_neg h2, if_neg h3, if_neg h4] at hv
            simp at hv

theorem textEncode_textDecode {bs : List Nat} (h : validUtf8 bs = true) :
    textEncode (textDecode bs) = bs := by
  obtain ⟨henc, hsc⟩ := utf8_decode_encode bs.length bs le_rfl h
  unfold textEncode textDecode
  rw [utf16_of_scalars _ hsc]
  exact henc

/-! ## Claim C4: codec round trip -/

/-- C4 counterexample: the UTF-8 default encoding does not round-trip
arbitrary byte buffers — the byte 0xFF decodes to U+FFFD and re-encodes as
its three replacement bytes, not as 0xFF. -/
theorem c4_counterexample :
    decodeAs .utf8 (encodeAs .utf8 [255]) = some [239, 191, 189] ∧
      decodeAs .utf8 (encodeAs .utf8 [255]) ≠ some [255] := by
  constructor <;> decide

/-- C4 amended: `decode(encode(b, e), e) = b` holds for raw (all buffers),
base64 (all buffers), and hex (nonempty buffers — the empty buffer encodes
to the empty string, which the hex decoder rejects); for the UTF-8 default
it holds exactly on buffers that are already valid UTF-8. -/
theorem c4_codec_roundtrip (bs : List Nat) (h : isBytes bs) :
    decodeAs .raw (encodeAs .raw bs) = some bs ∧
    decodeAs .b64 (encodeAs .b64 bs) = some bs ∧
    (bs ≠ [] → decodeAs .hex (encodeAs .hex bs) = some bs) ∧
    (validUtf8 bs = true → decodeAs .utf8 (encodeAs .utf8 bs) = some bs) := by
  refine ⟨rfl, ?_, ?_, ?_⟩
  · show atobBytes (btoaBytes bs) = some bs
    exact atob_btoa h
  · intro hne
    show hexDecodeJs (hexEncode bs) = some bs
    exact hexDecode_hexEncode h hne
  · intro hval
    show some (textEncode (textDecode bs)) = some bs
    rw [textEncode_textDecode hval]

/-- C4 witness: the amended round trip evaluated on the bytes of `hi`. -/
theorem c4_codec_roundtrip_witness :
    decodeAs .b64 (encodeAs .b64 [104, 105]) = some [104, 105] ∧
      decodeAs .hex (encodeAs .hex [104, 105]) = some [104, 105] ∧
      decodeAs .utf8 (encodeAs .utf8 [104, 105]) = some [104, 105] :=
  ⟨(c4_codec_roundtrip [104, 105] (by intro b hb; fin_cases hb <;> omega)).2.1,
   (c4_codec_roundtrip [104, 105] (by intro b hb; fin_cases hb <;> omega)).2.2.1
     (by decide),
   (c4_codec_roundtrip [104, 105] (by intro b hb; fin_cases hb <;> omega)).2.2.2
     (by decide)⟩

/-! ## Evaluation lemmas for the cipher path -/

theorem encModel_encrypt_eval (kdf : List Nat → List Nat → Nat → Nat → List Nat)
    (E D : List Nat → List Nat → List Nat → List Nat) (F : FbBackend)
    (alg m password : JsStr) (iterations : Nat) (b64 hx : Bool) (ent : Nat → Nat)
    (d : List Nat) (hne : m ≠ []) (hpw : password ≠ []) (hiter : iterations ≠ 0)
    (hnorm : normalizeInput b64 hx (.str m) = .ok d) :
    encModel (totalBackend kdf E D) F true
      ⟨alg, some (.str m), false, some password, none, none, iterations, b64, hx, false⟩
      ent
    = ⟨.ok ⟨.str (formatData b64 hx
          (E (kdf (textEncode password) (drawBytes ent 0 16) iterations
            (parseKeyBits alg)) (drawBytes ent 16 16) d)),
        some (.str (formatData b64 hx (drawBytes ent 16 16))),
        some (.str (formatData b64 hx (drawBytes ent 0 16)))⟩,
      some (drawBytes ent 0 16), some (drawBytes ent 16 16), false, none, none,
      none⟩ := by
  unfold encModel
  rw [if_neg (by simp [jsTruthy, hne])]
  rw [if_neg (by simp)]
  rw [if_neg (by simp [jsTruthyStr, hpw])]
  show (match normalizeInput b64 hx (.str m) with
    | .error e => _
    | .ok data => _) = _
  rw [hnorm]
  show (match primaryAttempt (totalBackend kdf E D)
      ⟨alg, some (.str m), false, some password, none, none, iterations, b64, hx, false⟩
      d ent with
    | (ps, pi, .ok r) => _
    | (ps, pi, .error _) => _) = _
  unfold primaryAttempt
  show (match (if iterations = 0 then _ else _ :
      Option (List Nat) × Option (List Nat) × Except String RetObj) with
    | (ps, pi, .ok r) => _
    | (ps, pi, .error _) => _) = _
  rw [if_neg hiter]
  rfl

theorem encModel_decrypt_eval (kdf : List Nat → List Nat → Nat → Nat → List Nat)
    (E D : List Nat → List Nat → List Nat → List Nat) (F : FbBackend)
    (alg dataS ivS saltS password : JsStr) (iterations : Nat) (b64 hx : Bool)
    (ent : Nat → Nat) (c sv vv : List Nat)
    (hne : dataS ≠ []) (hpw : password ≠ []) (hiv : ivS ≠ [])
    (hiter : iterations ≠ 0)
    (hnorm : normalizeInput b64 hx (.str dataS) = .ok c)
    (hsalt : resolveBufPrimary b64 hx (some (.str saltS)) ent 0 = .ok (sv, 0))
    (hivd : resolveBufPrimary b64 hx (some (.str ivS)) ent 0 = .ok (vv, 0)) :
    encModel (totalBackend kdf E D) F true
      ⟨alg, some (.str dataS), true, some password, some (.str saltS),
        some (.str ivS), iterations, b64, hx, false⟩ ent
    = ⟨.ok ⟨.str (formatData b64 hx
          (D (kdf (textEncode password) sv iterations (parseKeyBits alg)) vv c)),
        some (.str (formatData b64 hx vv)),
        some (.str (formatData b64 hx sv))⟩,
      some sv, some vv, false, none, none, none⟩ := by
  unfold encModel
  rw [if_neg (by simp [jsTruthy, hne])]
  rw [if_neg (by simp [jsTruthyStr, jsTruthy, hpw, hiv])]
  rw [if_neg (by simp)]
  show (match normalizeInput b64 hx (.str dataS) with
    | .error e => _
    | .ok data => _) = _
  rw [hnorm]
  show (match primaryAttempt (totalBackend kdf E D)
      ⟨alg, some (.str dataS), true, some password, some (.str saltS),
        some (.str ivS), iterations, b64, hx, false⟩ c ent with
    | (ps, pi, .ok r) => _
    | (ps, pi, .error _) => _) = _
  unfold primaryAttempt
  rw [hsalt]
  show (match (if iterations = 0 then _ else _ :
      Option (List Nat) × Option (List Nat) × Except String RetObj) with
    | (ps, pi, .ok r) => _
    | (ps, pi, .error _) => _) = _
  rw [if_neg hiter]
  show (match (match resolveBufPrimary b64 hx (some (.str ivS)) ent 0 with
    | .error e => _
    | .ok (ivBytes, _) => _ :
      Option (List Nat) × Option (List Nat) × Except String RetObj) with
    | (ps, pi, .ok r) => _
    | (ps, pi, .error _) => _) = _
  rw [hivd]
  rfl

/-! ## Claim C3: cross-backend key equivalence -/

theorem cjsHexParse_pairs :
    ∀ s : JsStr, allHexDigits s = true → s.length % 2 = 0 →
      cjsHexParse s = specHexPairs s
  | [] => by intro _ _; rfl
  | [c] => by intro _ h; simp at h
  | c1 :: c2 :: rest => by
    intro hx he
    simp only [allHexDigits, List.all_cons, Bool.and_eq_true] at hx
    obtain ⟨h1, h2, hrest⟩ := hx
    obtain ⟨v1, hv1⟩ := Option.isSome_iff_exists.mp h1
    obtain ⟨v2, hv2⟩ := Option.isSome_iff_exists.mp h2
    show toUint8 (parseIntHex [c1, c2]) :: cjsHexParse rest = _
    rw [toUint8_pair hv1 hv2,
      cjsHexParse_pairs rest hrest (by simp only [List.length_cons] at he; omega)]
    show _ = (16 * (hexVal c1).getD 0 + (hexVal c2).getD 0) :: specHexPairs rest
    rw [hv1, hv2]
    rfl

theorem hexDecodeJs_pairs {s : JsStr} (hx : allHexDigits s = true)
    (he : s.length % 2 = 0) (hne : s ≠ []) :
    hexDecodeJs s = some (specHexPairs s) := by
  unfold hexDecodeJs
  rw [if_neg, hexChunks_map_pairs s hx he]
  intro hemp
  simp only [List.isEmpty_iff] at hemp
  have hall := (hexChunks_nil_iff s).mp hemp
  cases s with
  | nil => exact hne rfl
  | cons c t =>
    have h1 : (hexVal c).isSome := by
      simp only [allHexDigits, List.all_cons, Bool.and_eq_true] at hx
      exact hx.1
    obtain ⟨v, hv⟩ := Option.isSome_iff_exists.mp h1
    have hlt := hexVal_not_lineTerm hv
    have := hall c (by simp)
    simp_all

theorem btoaBytes_ne_nil {bs : List Nat} (h : bs ≠ []) : btoaBytes bs ≠ [] := by
  cases bs with
  | nil => exact absurd rfl h
  | cons x t =>
    have := btoa_len_ge4 x t
    intro hc
    rw [hc] at this
    simp at this

/-- C3: for identical password, salt and iteration inputs, the Web Crypto
path and the CryptoJS fallback hand PBKDF2 (SHA-256, modelled as one shared
abstract function, both engines being assumed-correct implementations of
the same KDF) byte-identical argument tuples: the same UTF-8 password
bytes, the same decoded salt bytes (for base64-, hex- and UTF-8-flagged
salt strings), the same iteration count, and the same key length in bits —
hence byte-identical key material. -/
theorem c3_cross_backend_key_equivalence
    (pbkdf2 : List Nat → List Nat → Nat → Nat → List Nat)
    (password saltStr alg : JsStr) (ds : List Nat) (iterations : Nat)
    (b64 hx : Bool) (ent ent2 : Nat → Nat) (pos pos2 : Nat)
    (hiter : iterations ≠ 0)
    (hwfp : wellFormed16 password = true)
    (hds : firstDigitRun alg = some ds)
    (h32 : 32 ∣ digitsToNat ds) (hnz : digitsToNat ds ≠ 0)
    (hsalt : (b64 = true ∧ ∃ sbs, isBytes sbs ∧ sbs ≠ [] ∧ saltStr = btoaBytes sbs) ∨
      (b64 = false ∧ hx = true ∧ allHexDigits saltStr = true ∧
        saltStr.length % 2 = 0 ∧ saltStr ≠ []) ∨
      (b64 = false ∧ hx = false ∧ wellFormed16 saltStr = true ∧ saltStr ≠ [])) :
    ∃ sb : List Nat,
      resolveBufPrimary b64 hx (some (.str saltStr)) ent pos = .ok (sb, pos) ∧
      cjsResolveSalt b64 hx (some (.str saltStr)) ent2 pos2 = .ok (sb, pos2) ∧
      cjsUtf8Parse password = some (textEncode password) ∧
      primaryDeriveKey pbkdf2 password sb iterations (parseKeyBits alg) =
        fallbackDeriveKey pbkdf2 (textEncode password) sb iterations
          (fallbackKeyBits alg) := by
  have hpw : cjsUtf8Parse password = some (textEncode password) := by
    unfold cjsUtf8Parse
    rw [if_pos hwfp]
  have hk : parseKeyBits alg = fallbackKeyBits alg := by
    unfold parseKeyBits fallbackKeyBits
    rw [hds]
    dsimp only
    obtain ⟨k, hk32⟩ := h32
    rw [if_neg hnz]
    omega
  have hderive : ∀ sb, primaryDeriveKey pbkdf2 password sb iterations (parseKeyBits alg) =
      fallbackDeriveKey pbkdf2 (textEncode password) sb iterations
        (fallbackKeyBits alg) := by
    intro sb
    unfold primaryDeriveKey fallbackDeriveKey
    rw [if_neg hiter, hk]
  rcases hsalt with ⟨hb, sbs, hbytes, hne, rfl⟩ | ⟨hb, hhx, hall, heven, hne⟩ |
    ⟨hb, hhx, hwf, hne⟩
  · subst hb
    have htr : jsTruthy (some (.str (btoaBytes sbs))) = true := by
      simp [jsTruthy, btoaBytes_ne_nil hne]
    refine ⟨sbs, ?_, ?_, hpw, hderive sbs⟩
    · unfold resolveBufPrimary
      rw [if_pos htr]
      show (match atobBytes (coerceStr (.str (btoaBytes sbs))) with
        | some bs => Except.ok (bs, pos)
        | none => Except.error "Salt or IV base64 decode failed") = _
      show (match atobBytes (btoaBytes sbs) with
        | some bs => Except.ok (bs, pos)
        | none => Except.error "Salt or IV base64 decode failed") = _
      rw [atob_btoa hbytes]
    · unfold cjsResolveSalt
      rw [if_pos htr]
      show Except.ok (cjsBase64Parse (btoaBytes sbs), pos2) = _
      rw [cjsBase64Parse_btoa hbytes]
  · subst hb
    subst hhx
    have htr : jsTruthy (some (.str saltStr)) = true := by
      simp [jsTruthy, hne]
    refine ⟨specHexPairs saltStr, ?_, ?_, hpw, hderive _⟩
    · unfold resolveBufPrimary
      rw [if_pos htr]
      show (match hexDecodeJs saltStr with
        | some bs => Except.ok (bs, pos)
        | none => Except.error "Invalid hex salt or IV") = _
      rw [hexDecodeJs_pairs hall heven hne]
    · unfold cjsResolveSalt
      rw [if_pos htr]
      show Except.ok (cjsHexParse saltStr, pos2) = _
      rw [cjsHexParse_pairs saltStr hall heven]
  · subst hb
    subst hhx
    have htr : jsTruthy (some (.str saltStr)) = true := by
      simp [jsTruthy, hne]
    refine ⟨textEncode saltStr, ?_, ?_, hpw, hderive _⟩
    · unfold resolveBufPrimary
      rw [if_pos htr]
      rfl
    · unfold cjsResolveSalt
      rw [if_pos htr]
      show (match cjsUtf8Parse saltStr with
        | some bs => Except.ok (bs, pos2)
        | none => Except.error "URIError: malformed URI sequence") = _
      unfold cjsUtf8Parse
      rw [if_pos hwf]

/-- C3 witness: the equivalence at password `pw`, salt `salt` (default
UTF-8 flags), one iteration, algorithm `AES-256-CBC`, with a concrete
stand-in for PBKDF2. -/
theorem c3_cross_backend_key_equivalence_witness :
    ∃ sb : List Nat,
      resolveBufPrimary false false (some (.str (jsOf "salt"))) (fun _ => 0) 0
        = .ok (sb, 0) ∧
      cjsResolveSalt false false (some (.str (jsOf "salt"))) (fun _ => 7) 32
        = .ok (sb, 32) ∧
      cjsUtf8Parse (jsOf "pw") = some (textEncode (jsOf "pw")) ∧
      primaryDeriveKey (fun p s i k => p ++ s ++ [i % 256, k % 256]) (jsOf "pw") sb 1
          (parseKeyBits (jsOf "AES-256-CBC")) =
        fallbackDeriveKey (fun p s i k => p ++ s ++ [i % 256, k % 256])
          (textEncode (jsOf "pw")) sb 1 (fallbackKeyBits (jsOf "AES-256-CBC")) :=
  c3_cross_backend_key_equivalence (fun p s i k => p ++ s ++ [i % 256, k % 256])
    (jsOf "pw") (jsOf "salt") (jsOf "AES-256-CBC") (jsOf "256") 1 false false
    (fun _ => 0) (fun _ => 7) 0 32 (by decide) (by decide) (by decide)
    (by decide) (by decide)
    (Or.inr (Or.inr ⟨rfl, rfl, by decide, by decide⟩))

/-! ## Claim C1: cipher round trip on the primary path -/

theorem hexVal_getD_lt (c : Nat) : (hexVal c).getD 0 < 16 := by
  cases hv : hexVal c with
  | none => simp
  | some v => simpa using hexVal_lt hv

theorem specHexPairs_isBytes : ∀ s : JsStr, isBytes (specHexPairs s)
  | [] => by intro b hb; simp [specHexPairs] at hb
  | [c] => by intro b hb; simp [specHexPairs] at hb
  | c1 :: c2 :: rest => by
    intro b hb
    have hb2 : b ∈ (16 * (hexVal c1).getD 0 + (hexVal c2).getD 0) ::
        specHexPairs rest := hb
    rcases List.mem_cons.mp hb2 with rfl | hmem
    · have := hexVal_getD_lt c1
      have := hexVal_getD_lt c2
      omega
    · exact specHexPairs_isBytes rest b hmem

theorem validLowerHex_parts {m : JsStr} (h : validLowerHex m = true) :
    m ≠ [] ∧ m.length % 2 = 0 ∧ allHexDigits m = true := by
  unfold validLowerHex at h
  rw [Bool.and_eq_true, Bool.and_eq_true] at h
  obtain ⟨⟨hne, heven⟩, hall⟩ := h
  refine ⟨by simpa using hne, by simpa using heven, ?_⟩
  unfold allHexDigits
  rw [List.all_eq_true]
  rw [List.all_eq_true] at hall
  intro c hc
  have hrange := hall c hc
  simp only [decide_eq_true_eq] at hrange
  rcases hrange with h1 | h2
  · have hv : hexVal c = some (c - 48) := by
      unfold hexVal
      rw [if_pos (by omega)]
    simp [hv]
  · have hv : hexVal c = some (c - 87) := by
      unfold hexVal
      rw [if_neg (by omega), if_neg (by omega), if_pos (by omega)]
    simp [hv]

theorem lower_hexDigitChar {c : Nat}
    (h : (48 ≤ c ∧ c ≤ 57) ∨ (97 ≤ c ∧ c ≤ 102)) :
    hexDigitChar ((hexVal c).getD 0) = c := by
  rcases h with h1 | h2
  · have hv : hexVal c = some (c - 48) := by
      unfold hexVal
      rw [if_pos (by omega)]
    rw [hv]
    simp only [Option.getD_some]
    unfold hexDigitChar
    rw [if_pos (by omega)]
    omega
  · have hv : hexVal c = some (c - 87) := by
      unfold hexVal
      rw [if_neg (by omega), if_neg (by omega), if_pos (by omega)]
    rw [hv]
    simp only [Option.getD_some]
    unfold hexDigitChar
    rw [if_neg (by omega)]
    omega

theorem hexEncode_specHexPairs :
    ∀ m : JsStr,
      (∀ c ∈ m, (48 ≤ c ∧ c ≤ 57) ∨ (97 ≤ c ∧ c ≤ 102)) → m.length % 2 = 0 →
        hexEncode (specHexPairs m) = m
  | [] => by intro _ _; rfl
  | [c] => by intro _ h; simp at h
  | c1 :: c2 :: rest => by
    intro hall heven
    have h1 := hall c1 (by simp)
    have h2 := hall c2 (by simp)
    show hexEncode ((16 * (hexVal c1).getD 0 + (hexVal c2).getD 0) ::
      specHexPairs rest) = _
    show byteHex (16 * (hexVal c1).getD 0 + (hexVal c2).getD 0) ++
      hexEncode (specHexPairs rest) = _
    rw [hexEncode_specHexPairs rest (fun c hc => hall c (by simp [hc]))
      (by simp only [List.length_cons] at heven; omega)]
    have hv2 := hexVal_getD_lt c2
    have e1 : (16 * (hexVal c1).getD 0 + (hexVal c2).getD 0) / 16
        = (hexVal c1).getD 0 := by omega
    have e2 : (16 * (hexVal c1).getD 0 + (hexVal c2).getD 0) % 16
        = (hexVal c2).getD 0 := by omega
    unfold byteHex
    rw [e1, e2, lower_hexDigitChar h1, lower_hexDigitChar h2]
    rfl

theorem hexEncode_ne_nil {bs : List Nat} (h : bs ≠ []) : hexEncode bs ≠ [] := by
  cases bs with
  | nil => exact absurd rfl h
  | cons b t => simp [hexEncode, byteHex]

theorem drawBytes_ne_nil (ent : Nat → Nat) (pos : Nat) {n : Nat} (h : n ≠ 0) :
    drawBytes ent pos n ≠ [] := by
  intro hc
  have := drawBytes_length ent pos n
  rw [hc] at this
  simp at this
  omega

theorem validLowerHex_lower {m : JsStr} (h : validLowerHex m = true) :
    ∀ c ∈ m, (48 ≤ c ∧ c ≤ 57) ∨ (97 ≤ c ∧ c ≤ 102) := by
  unfold validLowerHex at h
  rw [Bool.and_eq_true, Bool.and_eq_true] at h
  obtain ⟨_, hall⟩ := h
  rw [List.all_eq_true] at hall
  intro c hc
  have := hall c hc
  simpa using this

/-- C1 amended: on the Web Crypto path, with the backend transforms
abstracted as inverse functions on byte buffers, the cipher round-trips
exactly when the effective output encoding faithfully transports bytes:
feeding the `{data, iv, salt}` of an encrypt call unmodified into a decrypt
call with the same flags, password, iterations and algorithm returns the
plaintext for the `hex` flag (on valid lowercase even-length hex
plaintexts) and for the `base64` flag (on canonical base64 plaintexts). -/
theorem c1_cipher_roundtrip
    (kdf : List Nat → List Nat → Nat → Nat → List Nat)
    (E D : List Nat → List Nat → List Nat → List Nat) (F : FbBackend)
    (alg password : JsStr) (iterations : Nat) (ent1 ent2 : Nat → Nat)
    (hpw : password ≠ []) (hiter : iterations ≠ 0)
    (hInv : ∀ k v m0, isBytes m0 → D k v (E k v m0) = m0)
    (hEb : ∀ k v m0, isBytes (E k v m0)) (hEne : ∀ k v m0, E k v m0 ≠ []) :
    (∀ m : JsStr, validLowerHex m = true →
      ∃ ds ivs ss r2,
        (encModel (totalBackend kdf E D) F true
          ⟨alg, some (.str m), false, some password, none, none, iterations,
            false, true, false⟩ ent1).result
          = .ok ⟨.str ds, some (.str ivs), some (.str ss)⟩ ∧
        (encModel (totalBackend kdf E D) F true
          ⟨alg, some (.str ds), true, some password, some (.str ss),
            some (.str ivs), iterations, false, true, false⟩ ent2).result
          = .ok r2 ∧ r2.data = .str m) ∧
    (∀ bs : List Nat, isBytes bs → bs ≠ [] →
      ∃ ds ivs ss r2,
        (encModel (totalBackend kdf E D) F true
          ⟨alg, some (.str (btoaBytes bs)), false, some password, none, none,
            iterations, true, false, false⟩ ent1).result
          = .ok ⟨.str ds, some (.str ivs), some (.str ss)⟩ ∧
        (encModel (totalBackend kdf E D) F true
          ⟨alg, some (.str ds), true, some password, some (.str ss),
            some (.str ivs), iterations, true, false, false⟩ ent2).result
          = .ok r2 ∧ r2.data = .str (btoaBytes bs)) := by
  have hsaltB := drawBytes_isBytes ent1 0 16
  have hivB := drawBytes_isBytes ent1 16 16
  have hsaltNe : drawBytes ent1 0 16 ≠ [] := drawBytes_ne_nil ent1 0 (by omega)
  have hivNe : drawBytes ent1 16 16 ≠ [] := drawBytes_ne_nil ent1 16 (by omega)
  constructor
  · intro m hm
    obtain ⟨hne, heven, hall⟩ := validLowerHex_parts hm
    set key := kdf (textEncode password) (drawBytes ent1 0 16) iterations
      (parseKeyBits alg) with hkey
    set d := specHexPairs m with hd
    set c := E key (drawBytes ent1 16 16) d with hc
    have hdB : isBytes d := specHexPairs_isBytes m
    have hcB : isBytes c := hEb _ _ _
    have hcNe : c ≠ [] := hEne _ _ _
    have henc := encModel_encrypt_eval kdf E D F alg m password iterations
      false true ent1 d hne hpw hiter
      (by
        show (match hexDecodeJs m with
          | some d2 => Except.ok d2
          | none => Except.error "Invalid hex input") = _
        rw [hexDecodeJs_pairs hall heven hne])
    refine ⟨hexEncode c, hexEncode (drawBytes ent1 16 16),
      hexEncode (drawBytes ent1 0 16),
      ⟨.str (formatData false true (D key (drawBytes ent1 16 16) c)),
        some (.str (formatData false true (drawBytes ent1 16 16))),
        some (.str (formatData false true (drawBytes ent1 0 16)))⟩, ?_, ?_, ?_⟩
    · rw [henc]
      rfl
    · rw [encModel_decrypt_eval kdf E D F alg (hexEncode c)
        (hexEncode (drawBytes ent1 16 16)) (hexEncode (drawBytes ent1 0 16))
        password iterations false true ent2 c (drawBytes ent1 0 16)
        (drawBytes ent1 16 16)
        (hexEncode_ne_nil hcNe) hpw (hexEncode_ne_nil hivNe) hiter
        (by
          show (match hexDecodeJs (hexEncode c) with
            | some d2 => Except.ok d2
            | none => Except.error "Invalid hex input") = _
          rw [hexDecode_hexEncode hcB hcNe])
        (by
          unfold resolveBufPrimary
          rw [if_pos (by simp [jsTruthy, hexEncode_ne_nil hsaltNe])]
          show (match hexDecodeJs (hexEncode (drawBytes ent1 0 16)) with
            | some bs2 => Except.ok (bs2, 0)
            | none => Except.error "Invalid hex salt or IV") = _
          rw [hexDecode_hexEncode hsaltB hsaltNe])
        (by
          unfold resolveBufPrimary
          rw [if_pos (by simp [jsTruthy, hexEncode_ne_nil hivNe])]
          show (match hexDecodeJs (hexEncode (drawBytes ent1 16 16)) with
            | some bs2 => Except.ok (bs2, 0)
            | none => Except.error "Invalid hex salt or IV") = _
          rw [hexDecode_hexEncode hivB hivNe])]
    · show JsData.str (formatData false true (D key (drawBytes ent1 16 16) c))
        = .str m
      rw [hc, hInv key (drawBytes ent1 16 16) d hdB]
      show JsData.str (hexEncode d) = .str m
      rw [hd, hexEncode_specHexPairs m (validLowerHex_lower hm) heven]
  · intro bs hbs hbne
    set key := kdf (textEncode password) (drawBytes ent1 0 16) iterations
      (parseKeyBits alg) with hkey
    set c := E key (drawBytes ent1 16 16) bs with hc
    have hcB : isBytes c := hEb _ _ _
    have hcNe : c ≠ [] := hEne _ _ _
    have henc := encModel_encrypt_eval kdf E D F alg (btoaBytes bs) password
      iterations true false ent1 bs (btoaBytes_ne_nil hbne) hpw hiter
      (by
        show (match atobBytes (btoaBytes bs) with
          | some d2 => Except.ok d2
          | none => Except.error "Base64 decode failed") = _
        rw [atob_btoa hbs])
    refine ⟨btoaBytes c, btoaBytes (drawBytes ent1 16 16),
      btoaBytes (drawBytes ent1 0 16),
      ⟨.str (formatData true false (D key (drawBytes ent1 16 16) c)),
        some (.str (formatData true false (drawBytes ent1 16 16))),
        some (.str (formatData true false (drawBytes ent1 0 16)))⟩, ?_, ?_, ?_⟩
    · rw [henc]
      rfl
    · rw [encModel_decrypt_eval kdf E D F alg (btoaBytes c)
        (btoaBytes (drawBytes ent1 16 16)) (btoaBytes (drawBytes ent1 0 16))
        password iterations true false ent2 c (drawBytes ent1 0 16)
        (drawBytes ent1 16 16)
        (btoaBytes_ne_nil hcNe) hpw (btoaBytes_ne_nil hivNe) hiter
        (by
          show (match atobBytes (btoaBytes c) with
            | some d2 => Except.ok d2
            | none => Except.error "Base64 decode failed") = _
          rw [atob_btoa hcB])
        (by
          unfold resolveBufPrimary
          rw [if_pos (by simp [jsTruthy, btoaBytes_ne_nil hsaltNe])]
          show (match atobBytes (coerceStr (.str (btoaBytes (drawBytes ent1 0 16)))) with
            | some bs2 => Except.ok (bs2, 0)
            | none => Except.error "Salt or IV base64 decode failed") = _
          show (match atobBytes (btoaBytes (drawBytes ent1 0 16)) with
            | some bs2 => Except.ok (bs2, 0)
            | none => Except.error "Salt or IV base64 decode failed") = _
          rw [atob_btoa hsaltB])
        (by
          unfold resolveBufPrimary
          rw [if_pos (by simp [jsTruthy, btoaBytes_ne_nil hivNe])]
          show (match atobBytes (btoaBytes (drawBytes ent1 16 16)) with
            | some bs2 => Except.ok (bs2, 0)
            | none => Except.error "Salt or IV base64 decode failed") = _
          rw [atob_btoa hivB])]
    · show JsData.str (formatData true false (D key (drawBytes ent1 16 16) c))
        = .str (btoaBytes bs)
      rw [hc, hInv key (drawBytes ent1 16 16) bs hbs]
      rfl

/-- C1 counterexample: with the default (UTF-8 text) output encoding the
round trip FAILS.  The backend here satisfies the inverse contract
(decrypt undoes encrypt on byte buffers, first conjunct), both calls
succeed on the primary path, yet decrypting the returned `{data, iv, salt}`
with the same flags, password, iterations and algorithm does not return the
plaintext `secret`: the auto-generated salt and IV bytes (0xFF...) are
corrupted by the UTF-8 text formatting (U+FFFD replacement characters), so
the derived key and IV differ on decryption. -/
theorem c1_counterexample :
    (∀ k v m0, isBytes m0 → cxD k v (cxE k v m0) = m0) ∧
    (∀ k v m0, isBytes (cxE k v m0)) ∧
    cxEnc1.result = .ok cxR1 ∧
    cxDec1.result = .ok cxR2 ∧
    cxR2.data ≠ .str (jsOf "secret") := by
  refine ⟨?_, ?_, by rfl, by rfl, by decide⟩
  · intro k v m0 hb
    unfold cxD cxE
    rw [List.map_map]
    have hcong : ∀ b ∈ m0,
        ((fun b => (b + 256 - (k.sum + v.sum) % 256) % 256) ∘
          (fun b => (b + (k.sum + v.sum)) % 256)) b = id b := by
      intro b hb2
      have := hb b hb2
      simp only [Function.comp, id]
      omega
    rw [List.map_congr_left hcong, List.map_id]
  · intro k v m0
    intro b hb
    unfold cxE at hb
    simp only [List.mem_map] at hb
    obtain ⟨a, _, rfl⟩ := hb
    omega

/-- C1 witness: the amended round trip evaluated with a concrete backend
(prepend-a-zero-byte cipher, salt-returning KDF), password `pw`, one
iteration, hex plaintext `ab` and base64 plaintext of bytes `[7, 8]`. -/
theorem c1_cipher_roundtrip_witness :
    (∃ ds ivs ss r2,
      (encModel (totalBackend (fun _ s _ _ => s)
          (fun _ _ d => 0 :: d.map (· % 256)) (fun _ _ c => c.tail)) cxF true
          ⟨jsOf "AES-256-CBC", some (.str (jsOf "ab")), false, some (jsOf "pw"),
            none, none, 1, false, true, false⟩ (fun _ => 0)).result
        = .ok ⟨.str ds, some (.str ivs), some (.str ss)⟩ ∧
      (encModel (totalBackend (fun _ s _ _ => s)
          (fun _ _ d => 0 :: d.map (· % 256)) (fun _ _ c => c.tail)) cxF true
          ⟨jsOf "AES-256-CBC", some (.str ds), true, some (jsOf "pw"),
            some (.str ss), some (.str ivs), 1, false, true, false⟩
          (fun _ => 0)).result
        = .ok r2 ∧ r2.data = .str (jsOf "ab")) ∧
    (∃ ds ivs ss r2,
      (encModel (totalBackend (fun _ s _ _ => s)
          (fun _ _ d => 0 :: d.map (· % 256)) (fun _ _ c => c.tail)) cxF true
          ⟨jsOf "AES-256-CBC", some (.str (btoaBytes [7, 8])), false,
            some (jsOf "pw"), none, none, 1, true, false, false⟩
          (fun _ => 0)).result
        = .ok ⟨.str ds, some (.str ivs), some (.str ss)⟩ ∧
      (encModel (totalBackend (fun _ s _ _ => s)
          (fun _ _ d => 0 :: d.map (· % 256)) (fun _ _ c => c.tail)) cxF true
          ⟨jsOf "AES-256-CBC", some (.str ds), true, some (jsOf "pw"),
            some (.str ss), some (.str ivs), 1, true, false, false⟩
          (fun _ => 0)).result
        = .ok r2 ∧ r2.data = .str (btoaBytes [7, 8])) := by
  have h := c1_cipher_roundtrip (fun _ s _ _ => s)
    (fun _ _ d => 0 :: d.map (· % 256)) (fun _ _ c => c.tail) cxF
    (jsOf "AES-256-CBC") (jsOf "pw") 1 (fun _ => 0) (fun _ => 0)
    (by decide) (by decide)
    (by
      intro k v m0 hb
      show (0 :: m0.map (· % 256)).tail = m0
      show m0.map (· % 256) = m0
      have hcong : ∀ b ∈ m0, b % 256 = id b := by
        intro b hb2
        have := hb b hb2
        simp only [id]
        omega
      rw [List.map_congr_left hcong, List.map_id])
    (by
      intro k v m0 b hb
      have hb2 : b ∈ 0 :: m0.map (· % 256) := hb
      rcases List.mem_cons.mp hb2 with rfl | hmem
      · omega
      · simp only [List.mem_map] at hmem
        obtain ⟨a, _, rfl⟩ := hmem
        omega)
    (by
      intro k v m0
      simp)
  exact ⟨h.1 (jsOf "ab") (by decide),
    h.2 [7, 8] (by intro b hb; fin_cases hb <;> omega) (by decide)⟩

/-! ## Claim C2: fallback salt/IV reuse -/

/-- C2 (code bug): on the failing input — encrypt with auto-generated salt
and IV, primary cipher failing — the retry on the CryptoJS fallback does
NOT reuse the salt and IV of the primary attempt: `enc` passes the original
(absent) `salt`/`iv` options to `cryptoJSEncrypt`, which draws fresh
random values, so the fallback salt and IV differ from the primary ones
(the iteration count alone is carried over). -/
theorem c2_fallback_regenerates :
    c2Out.fellBack = true ∧
    c2Out.primarySalt = some (drawBytes (fun n => n % 256) 0 16) ∧
    c2Out.primaryIv = some (drawBytes (fun n => n % 256) 16 16) ∧
    c2Out.fallbackSalt = some (drawBytes (fun n => n % 256) 32 16) ∧
    c2Out.fallbackIv = some (drawBytes (fun n => n % 256) 48 16) ∧
    c2Out.fallbackSalt ≠ c2Out.primarySalt ∧
    c2Out.fallbackIv ≠ c2Out.primaryIv ∧
    c2Out.fallbackIter = some 10000 := by
  refine ⟨by rfl, by rfl, by rfl, by rfl, by rfl, by decide, by decide, by rfl⟩

end WebOpenSSL
